import Mathlib

/-!
# Verification of the amms-rs synchronization and fixed-point math core

Shallow embedding of the repository's data model and operations:

* `divUU` embeds `div_uu` (src/amm/uniswap_v2/mod.rs, lines 328-409), the
  Q64.64 fixed-point division.  The `ruint::Uint<256,4>` arithmetic is
  embedded as `Nat` with an explicit `% 2^256` at every operation that can
  wrap (shifts, `overflowing_sub`, the in-place subtractions/additions);
  this is the release-profile (two's-complement wrapping) semantics of the
  source's integer operations.
* the venue model (`UniswapV2Pool`, `ERC4626Vault`) with `sync_from_log`,
  `get_amount_out`, `simulate_swap`, `simulate_swap_mut` and
  `calculate_price_64_x_64`.  `ethers::types::U256`/`u128` arithmetic panics
  on overflow, so those operations are embedded as `Option`-valued checked
  operations, `none` standing for a panic; `Option.unwrap` on a missing log
  field is a distinguished `panic` outcome.
* the checkpoint (`Checkpoint::extend`, `sync_currencies`,
  `remove_invalid_amm`) and the persistence adapter
  (`serialize_map_to_vec` / `deserialize_vec_to_map`), with `HashMap`
  embedded as an association list (`mapLookup`/`mapInsert`) and the
  network-facing batch query abstracted into an explicit argument.
-/

/-! ## Fixed-width arithmetic helpers -/

/-- `2^256`, the size of the `U256` value space. -/
def u256size : Nat := 2 ^ 256

/-- `ethers::types::U256` multiplication: panics (here `none`) on overflow. -/
def checkedMul256 (a b : Nat) : Option Nat :=
  if a * b < u256size then some (a * b) else none

/-- `ethers::types::U256` addition: panics (here `none`) on overflow. -/
def checkedAdd256 (a b : Nat) : Option Nat :=
  if a + b < u256size then some (a + b) else none

/-- `ethers::types::U256` subtraction: panics (here `none`) on underflow. -/
def checkedSub256 (a b : Nat) : Option Nat :=
  if b ≤ a then some (a - b) else none

/-- `u32` subtraction (debug profile): panics (here `none`) on underflow. -/
def checkedSubU32 (a b : Nat) : Option Nat :=
  if b ≤ a then some (a - b) else none

/-- `u128` addition (debug profile): panics (here `none`) on overflow. -/
def checkedAddU128 (a b : Nat) : Option Nat :=
  if a + b < 2 ^ 128 then some (a + b) else none

/-- `u128` subtraction (debug profile): panics (here `none`) on underflow. -/
def checkedSubU128 (a b : Nat) : Option Nat :=
  if b ≤ a then some (a - b) else none

/-- `U256::as_u128`: panics (here `none`) when the value does not fit. -/
def asU128 (a : Nat) : Option Nat :=
  if a < 2 ^ 128 then some a else none

/-! ## Error taxonomy

Modelled from the spec: the repository's `errors` module is not under
`src/`; the variants are named after their construction sites in
`src/amm/uniswap_v2/mod.rs` and `src/amm/erc_4626/mod.rs` and the spec's
error taxonomy (spec section 7). `ethAbiError` stands for the `From` kind
wrapping an `ethers` event-payload decode failure (`MalformedPayload`). -/

inductive ArithmeticError where
  | yIsZero
  | roundingError
  deriving DecidableEq, Repr

inductive EventLogError where
  | logBlockNumberNotFound
  | logIndexNotFound
  | logAlreadySynced
  | invalidEventSignature
  | ethAbiError
  deriving DecidableEq, Repr

/-! ## `div_uu` (src/amm/uniswap_v2/mod.rs, lines 328-409) -/

/-- One halving step of the most-significant-bit search
(src/amm/uniswap_v2/mod.rs, lines 340-363): if the running chunk `p.1` is at
least `2^w`, shift it right by `w` and add `w` to the running bit position
`p.2`. -/
def msbStep (w : Nat) (p : Nat × Nat) : Nat × Nat :=
  if 2 ^ w ≤ p.1 then (p.1 / 2 ^ w, p.2 + w) else p

/-- The most-significant-bit cascade of `div_uu`
(src/amm/uniswap_v2/mod.rs, lines 337-367): starting from `xc = x >> 192`
and `msb = 192`, successively tests widths 32, 16, 8, 4, 2, 1. -/
def divUUMsb (x : Nat) : Nat :=
  let p := msbStep 2 (msbStep 4 (msbStep 8 (msbStep 16 (msbStep 32 (x / 2 ^ 192, 192)))))
  if 2 ≤ p.1 then p.2 + 1 else p.2

/-- The straight-line tail of `div_uu`
(src/amm/uniswap_v2/mod.rs, lines 372-405): saturation check, 128/128 split
of `answer * y`, double-width subtraction from `x << 64` with explicit
borrows (`overflowing_sub` wraps; the `xh -= 1` borrow updates are wrapping
two's-complement decrements), the `RoundingError` reconciliation check, and
the final remainder correction `answer += xl / y` followed by the second
saturation check. -/
def divUUTail (x y answer : Nat) : Except ArithmeticError Nat :=
  if 2 ^ 128 - 1 < answer then .ok 0
  else
    let hi := answer * (y / 2 ^ 128) % 2 ^ 256
    let lo0 := answer * (y % 2 ^ 128) % 2 ^ 256
    let xh0 := x / 2 ^ 192
    let xl0 := x * 2 ^ 64 % 2 ^ 256
    let xh1 := if xl0 < lo0 then (xh0 + (2 ^ 256 - 1)) % 2 ^ 256 else xh0
    let xl1 := (xl0 + (2 ^ 256 - lo0)) % 2 ^ 256
    let lo1 := hi * 2 ^ 128 % 2 ^ 256
    let xh2 := if xl1 < lo1 then (xh1 + (2 ^ 256 - 1)) % 2 ^ 256 else xh1
    let xl2 := (xl1 + (2 ^ 256 - lo1)) % 2 ^ 256
    if xh2 ≠ hi / 2 ^ 128 then .error .roundingError
    else
      let answer2 := (answer + xl2 / y) % 2 ^ 256
      if 2 ^ 128 - 1 < answer2 then .ok 0 else .ok answer2

/-- `div_uu(x, y)` (src/amm/uniswap_v2/mod.rs, lines 328-409): Q64.64
division of `x` by `y`.  For `x` of at most 192 bits the initial estimate is
`(x << 64) / y`; otherwise both operands are normalized by the
most-significant-bit position of `x` before dividing.  The estimate is then
corrected by `divUUTail`. -/
def divUU (x y : Nat) : Except ArithmeticError Nat :=
  if y ≠ 0 then
    let answer :=
      if x ≤ 2 ^ 192 - 1 then x * 2 ^ 64 % 2 ^ 256 / y
      else
        let msb := divUUMsb x
        x * 2 ^ (255 - msb) % 2 ^ 256 / ((y - 1) / 2 ^ (msb - 191) + 1)
    divUUTail x y answer
  else .error .yIsZero

instance : DecidableEq (Except ArithmeticError Nat) := fun a b =>
  match a, b with
  | .ok x, .ok y => if h : x = y then .isTrue (by rw [h]) else .isFalse (by simp [h])
  | .error x, .error y => if h : x = y then .isTrue (by rw [h]) else .isFalse (by simp [h])
  | .ok _, .error _ => .isFalse (by simp)
  | .error _, .ok _ => .isFalse (by simp)

example : divUU 0 5 = .ok 0 := by decide
example : divUU 7 0 = .error .yIsZero := by decide
example : divUU 6 3 = .ok (2 * 2 ^ 64) := by decide

/-! ### Lemmas about the most-significant-bit cascade -/

theorem msbStep_spec (w x : Nat) (p : Nat × Nat)
    (hc : p.1 = x / 2 ^ p.2) (h1 : 1 ≤ p.1) (hb : p.1 < 2 ^ (2 * w)) :
    (msbStep w p).1 = x / 2 ^ (msbStep w p).2 ∧ 1 ≤ (msbStep w p).1 ∧
      (msbStep w p).1 < 2 ^ w ∧ p.2 ≤ (msbStep w p).2 ∧ (msbStep w p).2 ≤ p.2 + w := by
  unfold msbStep
  split
  · next h =>
    simp only
    refine ⟨?_, ?_, ?_, Nat.le_add_right _ _, le_refl _⟩
    · rw [hc, Nat.div_div_eq_div_mul, ← pow_add]
    · exact (Nat.one_le_div_iff (Nat.pos_pow_of_pos w (by norm_num))).2 h
    · apply Nat.div_lt_of_lt_mul
      rw [← pow_add]
      exact lt_of_lt_of_le hb (Nat.pow_le_pow_right (by norm_num) (by omega))
  · next h =>
    push_neg at h
    exact ⟨hc, h1, h, le_refl _, Nat.le_add_right _ _⟩

theorem divUUMsb_spec (x : Nat) (hlo : 2 ^ 192 ≤ x) (hhi : x < 2 ^ 256) :
    192 ≤ divUUMsb x ∧ divUUMsb x ≤ 255 ∧
      2 ^ divUUMsb x ≤ x ∧ x < 2 ^ (divUUMsb x + 1) := by
  have hp0c : (x / 2 ^ 192, 192).1 = x / 2 ^ (x / 2 ^ 192, 192).2 := rfl
  have hp01 : 1 ≤ (x / 2 ^ 192, 192).1 :=
    (Nat.one_le_div_iff (Nat.pos_pow_of_pos 192 (by norm_num))).2 hlo
  have hp0b : (x / 2 ^ 192, 192).1 < 2 ^ (2 * 32) := by
    apply Nat.div_lt_of_lt_mul
    calc x < 2 ^ 256 := hhi
    _ = 2 ^ 192 * 2 ^ (2 * 32) := by rw [← pow_add]
  obtain ⟨h1c, h11, h1b, h1l, h1u⟩ := msbStep_spec 32 x _ hp0c hp01 hp0b
  obtain ⟨h2c, h21, h2b, h2l, h2u⟩ := msbStep_spec 16 x _ h1c h11 h1b
  obtain ⟨h3c, h31, h3b, h3l, h3u⟩ := msbStep_spec 8 x _ h2c h21 h2b
  obtain ⟨h4c, h41, h4b, h4l, h4u⟩ := msbStep_spec 4 x _ h3c h31 h3b
  obtain ⟨h5c, h51, h5b, h5l, h5u⟩ := msbStep_spec 2 x _ h4c h41 h4b
  set q := msbStep 2 (msbStep 4 (msbStep 8 (msbStep 16 (msbStep 32 (x / 2 ^ 192, 192))))) with hq
  have hdiv : q.1 * 2 ^ q.2 ≤ x := by
    rw [h5c]; exact Nat.div_mul_le_self x _
  have hmod : x < (q.1 + 1) * 2 ^ q.2 := by
    rw [h5c]
    have hd := Nat.div_add_mod x (2 ^ q.2)
    have hm : x % 2 ^ q.2 < 2 ^ q.2 :=
      Nat.mod_lt x (Nat.pos_pow_of_pos _ (by norm_num))
    calc x = 2 ^ q.2 * (x / 2 ^ q.2) + x % 2 ^ q.2 := hd.symm
    _ < 2 ^ q.2 * (x / 2 ^ q.2) + 2 ^ q.2 := by omega
    _ = (x / 2 ^ q.2 + 1) * 2 ^ q.2 := by ring
  have hacc : 192 ≤ q.2 ∧ q.2 ≤ 254 := by
    constructor
    · calc (192 : Nat) ≤ _ := h1l
      _ ≤ _ := h2l
      _ ≤ _ := h3l
      _ ≤ _ := h4l
      _ ≤ _ := h5l
    · have c1 : (x / 2 ^ 192, 192).2 + 32 = 224 := rfl
      omega
  have hdef : divUUMsb x = if 2 ≤ q.1 then q.2 + 1 else q.2 := by
    simp only [divUUMsb]
  rw [hdef]
  split
  · next h2le =>
    refine ⟨by omega, by omega, ?_, ?_⟩
    · calc 2 ^ (q.2 + 1) = 2 * 2 ^ q.2 := by rw [pow_succ]; ring
      _ ≤ q.1 * 2 ^ q.2 := Nat.mul_le_mul_right _ h2le
      _ ≤ x := hdiv
    · calc x < (q.1 + 1) * 2 ^ q.2 := hmod
      _ ≤ 4 * 2 ^ q.2 := Nat.mul_le_mul_right _ (by omega)
      _ = 2 ^ (q.2 + 1 + 1) := by rw [pow_succ, pow_succ]; ring
  · next h2le =>
    push_neg at h2le
    have hq1 : q.1 = 1 := by omega
    refine ⟨by omega, by omega, ?_, ?_⟩
    · calc 2 ^ q.2 = 1 * 2 ^ q.2 := (one_mul _).symm
      _ ≤ q.1 * 2 ^ q.2 := Nat.mul_le_mul_right _ (by omega)
      _ ≤ x := hdiv
    · calc x < (q.1 + 1) * 2 ^ q.2 := hmod
      _ = 2 * 2 ^ q.2 := by rw [hq1]
      _ = 2 ^ (q.2 + 1) := by rw [pow_succ]; ring

/-! ### Lemmas about the tail of `div_uu` -/

theorem hi_lo_split_lt (A b : Nat) (hA : A ≤ 2 ^ 128 - 1) (hb : b < 2 ^ 128) :
    A * b < 2 ^ 256 := by
  calc A * b ≤ (2 ^ 128 - 1) * b := Nat.mul_le_mul_right _ hA
  _ < (2 ^ 128 - 1) * 2 ^ 128 + 2 ^ 128 := by
      have := Nat.mul_le_mul_left (2 ^ 128 - 1) (Nat.le_of_lt_succ (by omega : b < (2 ^ 128 - 1) + 1))
      omega
  _ = 2 ^ 256 := by norm_num

theorem mul_shift64_mod : ∀ x : Nat, x * 2 ^ 64 % 2 ^ 256 = x % 2 ^ 192 * 2 ^ 64 := by
  intro x
  have h : (2 : Nat) ^ 192 * 2 ^ 64 = 2 ^ 256 := by norm_num
  rw [← h]
  exact Nat.mul_mod_mul_right _ _ _

theorem mul_shift128_mod : ∀ a : Nat, a * 2 ^ 128 % 2 ^ 256 = a % 2 ^ 128 * 2 ^ 128 := by
  intro a
  have h : (2 : Nat) ^ 128 * 2 ^ 128 = 2 ^ 256 := by norm_num
  rw [← h]
  exact Nat.mul_mod_mul_right _ _ _

/-- The final correction step of the tail of `div_uu`: once the remainder
`x * 2^64 - answer * y` has been reconciled, adding `remainder / y` to the
estimate recovers the exact quotient, and the second saturation check maps a
quotient of more than 128 bits to `0`. -/
theorem divUUTail_final (x y A : Nat) (hy : 0 < y)
    (hP : A * y ≤ x * 2 ^ 64) (hQ : x * 2 ^ 64 / y < 2 ^ 256) :
    (if 2 ^ 128 - 1 < (A + (x * 2 ^ 64 - A * y) / y) % 2 ^ 256 then
        (Except.ok 0 : Except ArithmeticError Nat)
      else .ok ((A + (x * 2 ^ 64 - A * y) / y) % 2 ^ 256))
      = .ok (if x * 2 ^ 64 / y < 2 ^ 128 then x * 2 ^ 64 / y else 0) := by
  have hQde : x * 2 ^ 64 / y = A + (x * 2 ^ 64 - A * y) / y := by
    have h := Nat.mul_add_div hy A (x * 2 ^ 64 - A * y)
    have hRc : y * A + (x * 2 ^ 64 - A * y) = x * 2 ^ 64 := by
      have hc : y * A = A * y := Nat.mul_comm _ _
      omega
    rw [hRc] at h
    exact h
  have hlt : A + (x * 2 ^ 64 - A * y) / y < 2 ^ 256 := by omega
  have hfin : (A + (x * 2 ^ 64 - A * y) / y) % 2 ^ 256
      = A + (x * 2 ^ 64 - A * y) / y := Nat.mod_eq_of_lt hlt
  rw [hfin, ← hQde]
  split_ifs with h1 h2
  · exfalso; omega
  · rfl
  · rfl
  · exfalso; omega

/-- When the remainder `x * 2^64 - answer * y` fits in 256 bits, the
double-width subtraction in the tail of `div_uu` reconciles, the
`RoundingError` branch is not taken, and the result is the exact quotient
`x * 2^64 / y`, saturated to `0` when it exceeds 128 bits. -/
theorem divUUTail_ok_of_rem_lt (x y A : Nat) (hy : 0 < y) (hx : x < 2 ^ 256)
    (hyu : y < 2 ^ 256) (hA : A ≤ 2 ^ 128 - 1) (hP : A * y ≤ x * 2 ^ 64)
    (hr : x * 2 ^ 64 - A * y < 2 ^ 256) (hQ : x * 2 ^ 64 / y < 2 ^ 256) :
    divUUTail x y A = .ok (if x * 2 ^ 64 / y < 2 ^ 128 then x * 2 ^ 64 / y else 0) := by
  have hBhi : A * (y / 2 ^ 128) < 2 ^ 256 := by
    have h1 : y / 2 ^ 128 < 2 ^ 128 := by omega
    calc A * (y / 2 ^ 128) ≤ (2 ^ 128 - 1) * (y / 2 ^ 128) := Nat.mul_le_mul_right _ hA
    _ ≤ (2 ^ 128 - 1) * (2 ^ 128 - 1) := Nat.mul_le_mul_left _ (by omega)
    _ < 2 ^ 256 := by norm_num
  have hBlo : A * (y % 2 ^ 128) < 2 ^ 256 := by
    have h1 : y % 2 ^ 128 < 2 ^ 128 := by omega
    calc A * (y % 2 ^ 128) ≤ (2 ^ 128 - 1) * (y % 2 ^ 128) := Nat.mul_le_mul_right _ hA
    _ ≤ (2 ^ 128 - 1) * (2 ^ 128 - 1) := Nat.mul_le_mul_left _ (by omega)
    _ < 2 ^ 256 := by norm_num
  have hPde : A * y = A * (y / 2 ^ 128) * 2 ^ 128 + A * (y % 2 ^ 128) := by
    conv_lhs => rw [← Nat.div_add_mod y (2 ^ 128)]
    ring
  simp only [divUUTail]
  rw [if_neg (by omega)]
  have hxl2v : ((x * 2 ^ 64 % 2 ^ 256 + (2 ^ 256 - A * (y % 2 ^ 128) % 2 ^ 256)) % 2 ^ 256 +
      (2 ^ 256 - A * (y / 2 ^ 128) % 2 ^ 256 * 2 ^ 128 % 2 ^ 256)) % 2 ^ 256
      = x * 2 ^ 64 - A * y := by omega
  rw [hxl2v]
  by_cases hb1 : x * 2 ^ 64 % 2 ^ 256 < A * (y % 2 ^ 128) % 2 ^ 256
  · rw [if_pos hb1]
    by_cases hb2 : (x * 2 ^ 64 % 2 ^ 256 + (2 ^ 256 - A * (y % 2 ^ 128) % 2 ^ 256)) % 2 ^ 256 <
        A * (y / 2 ^ 128) % 2 ^ 256 * 2 ^ 128 % 2 ^ 256
    · rw [if_pos hb2]
      rw [if_neg (by omega :
        ¬(((x / 2 ^ 192 + (2 ^ 256 - 1)) % 2 ^ 256 + (2 ^ 256 - 1)) % 2 ^ 256 ≠
          A * (y / 2 ^ 128) % 2 ^ 256 / 2 ^ 128))]
      exact divUUTail_final x y A hy hP hQ
    · rw [if_neg hb2]
      rw [if_neg (by omega :
        ¬((x / 2 ^ 192 + (2 ^ 256 - 1)) % 2 ^ 256 ≠
          A * (y / 2 ^ 128) % 2 ^ 256 / 2 ^ 128))]
      exact divUUTail_final x y A hy hP hQ
  · rw [if_neg hb1]
    by_cases hb2 : (x * 2 ^ 64 % 2 ^ 256 + (2 ^ 256 - A * (y % 2 ^ 128) % 2 ^ 256)) % 2 ^ 256 <
        A * (y / 2 ^ 128) % 2 ^ 256 * 2 ^ 128 % 2 ^ 256
    · rw [if_pos hb2]
      rw [if_neg (by omega :
        ¬((x / 2 ^ 192 + (2 ^ 256 - 1)) % 2 ^ 256 ≠
          A * (y / 2 ^ 128) % 2 ^ 256 / 2 ^ 128))]
      exact divUUTail_final x y A hy hP hQ
    · rw [if_neg hb2]
      rw [if_neg (by omega :
        ¬(x / 2 ^ 192 ≠ A * (y / 2 ^ 128) % 2 ^ 256 / 2 ^ 128))]
      exact divUUTail_final x y A hy hP hQ

/-- The first saturation check of the tail of `div_uu`: an estimate of more
than 128 bits returns `Ok(0)` immediately. -/
theorem divUUTail_sat (x y A : Nat) (hsat : 2 ^ 128 - 1 < A) :
    divUUTail x y A = .ok 0 := by
  simp only [divUUTail]
  rw [if_pos hsat]

/-- When the remainder `x * 2^64 - answer * y` needs more than 256 bits, the
reconciliation check of the tail of `div_uu` fails and the `RoundingError`
branch is taken. -/
theorem divUUTail_err_of_rem_ge (x y A : Nat) (hy : 0 < y) (hx : x < 2 ^ 256)
    (hyu : y < 2 ^ 256) (hA : A ≤ 2 ^ 128 - 1) (hP : A * y ≤ x * 2 ^ 64)
    (hr : 2 ^ 256 ≤ x * 2 ^ 64 - A * y) :
    divUUTail x y A = .error .roundingError := by
  have hBhi : A * (y / 2 ^ 128) < 2 ^ 256 := by
    have h1 : y / 2 ^ 128 < 2 ^ 128 := by omega
    calc A * (y / 2 ^ 128) ≤ (2 ^ 128 - 1) * (y / 2 ^ 128) := Nat.mul_le_mul_right _ hA
    _ ≤ (2 ^ 128 - 1) * (2 ^ 128 - 1) := Nat.mul_le_mul_left _ (by omega)
    _ < 2 ^ 256 := by norm_num
  have hBlo : A * (y % 2 ^ 128) < 2 ^ 256 := by
    have h1 : y % 2 ^ 128 < 2 ^ 128 := by omega
    calc A * (y % 2 ^ 128) ≤ (2 ^ 128 - 1) * (y % 2 ^ 128) := Nat.mul_le_mul_right _ hA
    _ ≤ (2 ^ 128 - 1) * (2 ^ 128 - 1) := Nat.mul_le_mul_left _ (by omega)
    _ < 2 ^ 256 := by norm_num
  have hPde : A * y = A * (y / 2 ^ 128) * 2 ^ 128 + A * (y % 2 ^ 128) := by
    conv_lhs => rw [← Nat.div_add_mod y (2 ^ 128)]
    ring
  simp only [divUUTail]
  rw [if_neg (by omega)]
  by_cases hb1 : x * 2 ^ 64 % 2 ^ 256 < A * (y % 2 ^ 128) % 2 ^ 256
  · rw [if_pos hb1]
    by_cases hb2 : (x * 2 ^ 64 % 2 ^ 256 + (2 ^ 256 - A * (y % 2 ^ 128) % 2 ^ 256)) % 2 ^ 256 <
        A * (y / 2 ^ 128) % 2 ^ 256 * 2 ^ 128 % 2 ^ 256
    · rw [if_pos hb2]
      rw [if_pos (by omega :
        ((x / 2 ^ 192 + (2 ^ 256 - 1)) % 2 ^ 256 + (2 ^ 256 - 1)) % 2 ^ 256 ≠
          A * (y / 2 ^ 128) % 2 ^ 256 / 2 ^ 128)]
    · rw [if_neg hb2]
      rw [if_pos (by omega :
        (x / 2 ^ 192 + (2 ^ 256 - 1)) % 2 ^ 256 ≠
          A * (y / 2 ^ 128) % 2 ^ 256 / 2 ^ 128)]
  · rw [if_neg hb1]
    by_cases hb2 : (x * 2 ^ 64 % 2 ^ 256 + (2 ^ 256 - A * (y % 2 ^ 128) % 2 ^ 256)) % 2 ^ 256 <
        A * (y / 2 ^ 128) % 2 ^ 256 * 2 ^ 128 % 2 ^ 256
    · rw [if_pos hb2]
      rw [if_pos (by omega :
        (x / 2 ^ 192 + (2 ^ 256 - 1)) % 2 ^ 256 ≠
          A * (y / 2 ^ 128) % 2 ^ 256 / 2 ^ 128)]
    · rw [if_neg hb2]
      rw [if_pos (by omega :
        x / 2 ^ 192 ≠ A * (y / 2 ^ 128) % 2 ^ 256 / 2 ^ 128)]

/-- For `x` of at most 192 bits, `div_uu` always succeeds and returns the
exact quotient `x * 2^64 / y`, saturated to `0` above 128 bits. -/
theorem divUU_small (x y : Nat) (hy : y ≠ 0) (hx192 : x ≤ 2 ^ 192 - 1)
    (hyu : y < 2 ^ 256) :
    divUU x y = .ok (if x * 2 ^ 64 / y < 2 ^ 128 then x * 2 ^ 64 / y else 0) := by
  have hy0 : 0 < y := Nat.pos_of_ne_zero hy
  have hX : x * 2 ^ 64 < 2 ^ 256 := by omega
  simp only [divUU]
  rw [if_pos hy, if_pos hx192, Nat.mod_eq_of_lt hX]
  have hP : x * 2 ^ 64 / y * y ≤ x * 2 ^ 64 := Nat.div_mul_le_self _ _
  have hQX := Nat.div_le_self (x * 2 ^ 64) y
  by_cases hsat : 2 ^ 128 - 1 < x * 2 ^ 64 / y
  · rw [divUUTail_sat x y _ hsat, if_neg (by omega)]
  · have hcomm : y * (x * 2 ^ 64 / y) = x * 2 ^ 64 / y * y := Nat.mul_comm _ _
    have hdm := Nat.div_add_mod (x * 2 ^ 64) y
    have hml : x * 2 ^ 64 % y < y := Nat.mod_lt _ hy0
    exact divUUTail_ok_of_rem_lt x y _ hy0 (by omega) hyu (by omega) hP
      (by omega) (by omega)

/-- Whenever `div_uu` succeeds, the returned value is the exact quotient
`x * 2^64 / y` when that fits in 128 bits, and `0` otherwise. -/
theorem divUU_ok_char (x y : Nat) (hy : y ≠ 0) (hx : x < 2 ^ 256)
    (hyu : y < 2 ^ 256) :
    ∀ v, divUU x y = .ok v →
      v = if x * 2 ^ 64 / y < 2 ^ 128 then x * 2 ^ 64 / y else 0 := by
  intro v hv
  have hy0 : 0 < y := Nat.pos_of_ne_zero hy
  by_cases hx192 : x ≤ 2 ^ 192 - 1
  · rw [divUU_small x y hy hx192 hyu] at hv
    injection hv with h
    exact h.symm
  · obtain ⟨hm1, hm2, hm3, hm4⟩ := divUUMsb_spec x (by omega) hx
    simp only [divUU] at hv
    rw [if_pos hy, if_neg hx192] at hv
    set m := divUUMsb x with hmdef
    have hNw : x * 2 ^ (255 - m) < 2 ^ 256 := by
      calc x * 2 ^ (255 - m) < 2 ^ (m + 1) * 2 ^ (255 - m) :=
            (Nat.mul_lt_mul_right (Nat.pos_pow_of_pos _ (by norm_num))).2 hm4
      _ = 2 ^ 256 := by
            rw [← pow_add]
            have he : m + 1 + (255 - m) = 256 := by omega
            rw [he]
    rw [Nat.mod_eq_of_lt hNw] at hv
    set E := 2 ^ (m - 191) with hE
    have hEpos : 0 < E := Nat.pos_pow_of_pos _ (by norm_num)
    have hq1 := Nat.div_add_mod (y - 1) E
    have hq2 : (y - 1) % E < E := Nat.mod_lt _ hEpos
    set q := (y - 1) / E with hqdef
    set c := q + 1 with hc
    set N := x * 2 ^ (255 - m) with hN
    set A := N / c with hA
    have hdivmul : A * c ≤ N := by rw [hA]; exact Nat.div_mul_le_self N c
    have hNE : N * E = x * 2 ^ 64 := by
      rw [hN, hE, mul_assoc, ← pow_add]
      have he : 255 - m + (m - 191) = 64 := by omega
      rw [he]
    have hNge255 : 2 ^ 192 ≤ x → 2 ^ 255 ≤ N := by
      intro hxg
      rw [hN]
      calc (2 : Nat) ^ 255 = 2 ^ m * 2 ^ (255 - m) := by
            rw [← pow_add]
            have he : m + (255 - m) = 255 := by omega
            rw [he]
      _ ≤ x * 2 ^ (255 - m) := Nat.mul_le_mul_right _ hm3
    have hNb : N < 2 ^ 256 := hN ▸ hNw
    clear_value A
    clear_value N
    clear_value c
    clear_value q
    clear_value E
    have hcEid : c * E = E * q + E := by rw [hc]; ring
    have hcE : y ≤ c * E := by omega
    have hP : A * y ≤ x * 2 ^ 64 := by
      calc A * y ≤ A * (c * E) := Nat.mul_le_mul_left _ hcE
      _ = A * c * E := by ring
      _ ≤ N * E := Nat.mul_le_mul_right _ hdivmul
      _ = x * 2 ^ 64 := hNE
    have hAQ : A ≤ x * 2 ^ 64 / y := (Nat.le_div_iff_mul_le hy0).2 hP
    by_cases hsat : 2 ^ 128 - 1 < A
    · rw [divUUTail_sat x y A hsat] at hv
      injection hv with h
      rw [if_neg (by omega)]
      exact h.symm
    · have hc2 : 2 ≤ c := by
        by_contra hcon
        have hc1 : c = 1 := by omega
        have hAN : A = N := by rw [hA, hc1, Nat.div_one]
        have hNge := hNge255 (by omega)
        omega
      have hyE : E + 1 ≤ y := by
        have hq3 : 1 ≤ q := by omega
        have h4 : E * 1 ≤ E * q := Nat.mul_le_mul_left E hq3
        omega
      have hQb : x * 2 ^ 64 / y < 2 ^ 256 := by
        have hle : x * 2 ^ 64 / y ≤ x * 2 ^ 64 / (E + 1) :=
          Nat.div_le_div_left hyE (by omega)
        have hlt : x * 2 ^ 64 / (E + 1) < 2 ^ 256 := by
          rw [Nat.div_lt_iff_lt_mul (show 0 < E + 1 by omega)]
          calc x * 2 ^ 64 = N * E := hNE.symm
          _ ≤ 2 ^ 256 * E := Nat.mul_le_mul_right _ (by omega)
          _ < 2 ^ 256 * (E + 1) :=
              (Nat.mul_lt_mul_left (show 0 < (2 : Nat) ^ 256 by norm_num)).2 (by omega)
        omega
      by_cases hrem : x * 2 ^ 64 - A * y < 2 ^ 256
      · rw [divUUTail_ok_of_rem_lt x y A hy0 hx hyu (by omega) hP hrem hQb] at hv
        injection hv with h
        exact h.symm
      · rw [divUUTail_err_of_rem_ge x y A hy0 hx hyu (by omega) hP (by omega)] at hv
        exact absurd hv (by simp)

/-! ### Claim C1 -/

/-- **C1** (amended).  `div_uu(x, 0)` fails with the divisor-zero error
`YIsZero`; for nonzero `y`, whenever `div_uu` succeeds it returns
`⌊x * 2^64 / y⌋` when that value fits in 128 bits and `0` (saturation) when
it exceeds 128 bits; for `x < 2^192` it always succeeds, and in particular
`div_uu(0, y) = Ok(0)` for every nonzero `y`.  (The original claim further
asserted that the `RoundingError` branch is never taken for any nonzero
denominator; that part is refuted by `c1_roundingError_reachable`, so the
success-value characterization is stated here only conditionally on the
call having succeeded.) -/
theorem c1_divUU_spec (x y : Nat) (hx : x < 2 ^ 256) (hyu : y < 2 ^ 256) :
    divUU x 0 = .error .yIsZero
    ∧ (y ≠ 0 → ∀ v, divUU x y = .ok v →
        v = if x * 2 ^ 64 / y < 2 ^ 128 then x * 2 ^ 64 / y else 0)
    ∧ (y ≠ 0 → x < 2 ^ 192 →
        divUU x y = .ok (if x * 2 ^ 64 / y < 2 ^ 128 then x * 2 ^ 64 / y else 0))
    ∧ (y ≠ 0 → divUU 0 y = .ok 0) := by
  refine ⟨?_, ?_, ?_, ?_⟩
  · simp [divUU]
  · intro hy v hv
    exact divUU_ok_char x y hy hx hyu v hv
  · intro hy hxs
    exact divUU_small x y hy (by omega) hyu
  · intro hy
    have h := divUU_small 0 y hy (by norm_num) hyu
    simpa using h

/-- Witness for C1 at concrete inputs: `div_uu(3, 2)` succeeds with the
exact Q64.64 quotient and `div_uu(5, 0)` fails with the divisor-zero
error. -/
theorem c1_divUU_spec_witness :
    divUU 3 2 = .ok (if 3 * 2 ^ 64 / 2 < 2 ^ 128 then 3 * 2 ^ 64 / 2 else 0)
    ∧ divUU 5 0 = .error .yIsZero :=
  ⟨(c1_divUU_spec 3 2 (by norm_num) (by norm_num)).2.2.1 (by norm_num) (by norm_num),
   (c1_divUU_spec 5 0 (by norm_num) (by norm_num)).1⟩

/-- **C1** counterexample: the claim asserts the `RoundingError` branch is
never taken for a nonzero denominator, and that `div_uu` succeeds whenever
the true quotient fits in 128 bits.  At `x = 2^256 - 1`,
`y = 2^256 - 2^64 + 1` the true quotient `⌊x * 2^64 / y⌋ = 2^64` fits in
128 bits, yet `div_uu` returns `RoundingError`. -/
theorem c1_roundingError_reachable :
    divUU (2 ^ 256 - 1) (2 ^ 256 - 2 ^ 64 + 1) = .error .roundingError
    ∧ (2 ^ 256 - 1) * 2 ^ 64 / (2 ^ 256 - 2 ^ 64 + 1) = 2 ^ 64
    ∧ (2 : Nat) ^ 64 < 2 ^ 128 ∧ (2 : Nat) ^ 256 - 2 ^ 64 + 1 ≠ 0 := by
  exact ⟨by decide, by decide, by decide, by decide⟩

/-! ## Venue model

Addresses (`H160`) and topic hashes (`H256`) are embedded as `Nat`; the
event-signature constants are the byte arrays of the source folded
big-endian. -/

/-- Fold the 32 bytes of an `H256` constant, big-endian. -/
def h256OfBytes (bs : List Nat) : Nat := bs.foldl (fun a b => a * 256 + b) 0

/-- `SYNC_EVENT_SIGNATURE` (src/amm/uniswap_v2/mod.rs, lines 43-46). -/
def SYNC_EVENT_SIGNATURE : Nat := h256OfBytes
  [28, 65, 30, 154, 150, 224, 113, 36, 28, 47, 33, 247, 114, 107, 23, 174, 137, 227, 202, 180,
   199, 139, 229, 14, 6, 43, 3, 169, 255, 251, 186, 209]

/-- `DEPOSIT_EVENT_SIGNATURE` (src/amm/erc_4626/mod.rs, lines 35-38). -/
def DEPOSIT_EVENT_SIGNATURE : Nat := h256OfBytes
  [220, 188, 28, 5, 36, 15, 49, 255, 58, 208, 103, 239, 30, 227, 92, 228, 153, 119, 98, 117, 46,
   58, 9, 82, 132, 117, 69, 68, 244, 199, 9, 215]

/-- `WITHDRAW_EVENT_SIGNATURE` (src/amm/erc_4626/mod.rs, lines 40-43). -/
def WITHDRAW_EVENT_SIGNATURE : Nat := h256OfBytes
  [251, 222, 121, 125, 32, 28, 104, 27, 145, 5, 101, 41, 17, 158, 11, 2, 64, 124, 123, 185, 106,
   74, 44, 117, 192, 31, 201, 102, 114, 50, 200, 219]

/-- `PAIR_CREATED_EVENT_SIGNATURE` (src/amm/uniswap_v2/factory.rs, lines 27-30). -/
def PAIR_CREATED_EVENT_SIGNATURE : Nat := h256OfBytes
  [13, 54, 72, 189, 15, 107, 168, 1, 52, 163, 59, 169, 39, 90, 197, 133, 217, 211, 21, 240, 173,
   131, 85, 205, 222, 253, 227, 26, 250, 40, 208, 233]

/-- `Currency` (src/currency/mod.rs, lines 16-21): token address, symbol and
decimals. -/
structure Currency where
  address : Nat
  symbol : String
  decimals : Nat
  deriving DecidableEq, Repr

/-- `Currency::default()`. -/
def Currency.default : Currency := ⟨0, "", 0⟩

/-- `Currency::is_invalid_token` (src/currency/mod.rs, lines 42-44). -/
def Currency.is_invalid_token (c : Currency) : Bool :=
  c.address = 0 || c.symbol.length = 0

/-- Modelled from the spec: `Currency::data_is_populated` is called from
src/sync/checkpoint.rs and src/amm/uniswap_v2/mod.rs but its definition is
not under `src/` (the file shows only `data_is_filled`, symbol nonempty);
following the spec's notion of resolved token metadata, it holds when the
symbol is nonempty. -/
def Currency.data_is_populated (c : Currency) : Bool :=
  c.symbol.length > 0

/-- `ethers::types::Log`, restricted to the fields the repository reads:
the first topic, the optional positional fields, and the decoded event
payload.  `payload` stands for the result of the matching
`EthEvent::decode_log` call (`Sync` → `(reserve_0, reserve_1)`,
`Deposit`/`Withdraw` → `(assets, shares)`); `none` is a payload the ABI
decoder rejects. -/
structure Log where
  topic0 : Nat
  blockNumber : Option Nat
  logIndex : Option Nat
  payload : Option (Nat × Nat)
  deriving DecidableEq, Repr

/-- Rust tuple ordering on `(u64, u64)`: lexicographic. -/
def cursorLe (a b : Nat × Nat) : Prop :=
  a.1 < b.1 ∨ (a.1 = b.1 ∧ a.2 ≤ b.2)

instance (a b : Nat × Nat) : Decidable (cursorLe a b) := by
  unfold cursorLe; infer_instance

/-- `UniswapV2Pool` (src/amm/uniswap_v2/mod.rs, lines 48-57). -/
structure UniswapV2Pool where
  address : Nat
  token_a : Currency
  token_b : Currency
  reserve_0 : Nat
  reserve_1 : Nat
  last_synced_log : Nat × Nat
  fee : Nat
  deriving DecidableEq, Repr

/-- `ERC4626Vault` (src/amm/erc_4626/mod.rs, lines 45-62). -/
structure ERC4626Vault where
  vault_token : Nat
  vault_token_decimals : Nat
  asset_token : Nat
  asset_token_decimals : Nat
  vault_reserve : Nat
  asset_reserve : Nat
  deposit_fee : Nat
  withdraw_fee : Nat
  last_synced : Nat × Nat
  deriving DecidableEq, Repr

/-- `ERC4626Vault::default()`: all fields zero. -/
def ERC4626Vault.default : ERC4626Vault := ⟨0, 0, 0, 0, 0, 0, 0, 0, (0, 0)⟩

/-- Outcome of a `sync_from_log` call: `ok` with the updated venue, `err`
with the unchanged-or-not venue as the call left it, or `panic` (an
`Option::unwrap` on `None`, or integer overflow in debug profile). -/
inductive SyncResult (α : Type) where
  | ok (venue : α)
  | err (e : EventLogError) (venue : α)
  | panic
  deriving DecidableEq, Repr

/-- `UniswapV2Pool::sync_from_log` (src/amm/uniswap_v2/mod.rs, lines
105-130).  The event signature is checked first; inside the `Sync` branch
the block number and log index are taken with `.unwrap()` (a missing field
panics), the cursor is compared, the payload is decoded, and only then are
the reserves and cursor written. -/
def UniswapV2Pool.sync_from_log (p : UniswapV2Pool) (l : Log) :
    SyncResult UniswapV2Pool :=
  if l.topic0 = SYNC_EVENT_SIGNATURE then
    match l.blockNumber, l.logIndex with
    | some bn, some li =>
      if cursorLe (bn, li) p.last_synced_log then
        .err .logAlreadySynced p
      else
        match l.payload with
        | none => .err .ethAbiError p
        | some (r0, r1) =>
          .ok { p with reserve_0 := r0, reserve_1 := r1, last_synced_log := (bn, li) }
    | _, _ => .panic
  else .err .invalidEventSignature p

/-- `ERC4626Vault::sync_from_log` (src/amm/erc_4626/mod.rs, lines 94-121).
The positional fields are taken with `ok_or` (an error, not a panic), the
cursor is compared before the signature is classified, and the reserve
deltas are applied with `U256` `+=`/`-=`, which panic on overflow and
underflow. -/
def ERC4626Vault.sync_from_log (v : ERC4626Vault) (l : Log) :
    SyncResult ERC4626Vault :=
  match l.blockNumber with
  | none => .err .logBlockNumberNotFound v
  | some bn =>
    match l.logIndex with
    | none => .err .logIndexNotFound v
    | some li =>
      if cursorLe (bn, li) v.last_synced then
        .err .logAlreadySynced v
      else if l.topic0 = DEPOSIT_EVENT_SIGNATURE then
        match l.payload with
        | none => .err .ethAbiError v
        | some (assets, shares) =>
          if v.asset_reserve + assets < 2 ^ 256 ∧ v.vault_reserve + shares < 2 ^ 256 then
            .ok { v with asset_reserve := v.asset_reserve + assets,
                         vault_reserve := v.vault_reserve + shares,
                         last_synced := (bn, li) }
          else .panic
      else if l.topic0 = WITHDRAW_EVENT_SIGNATURE then
        match l.payload with
        | none => .err .ethAbiError v
        | some (assets, shares) =>
          if assets ≤ v.asset_reserve ∧ shares ≤ v.vault_reserve then
            .ok { v with asset_reserve := v.asset_reserve - assets,
                         vault_reserve := v.vault_reserve - shares,
                         last_synced := (bn, li) }
          else .panic
      else .err .invalidEventSignature v

/-! ### Lemmas about `sync_from_log` -/

theorem pool_sync_err_unchanged (p : UniswapV2Pool) (l : Log) (e : EventLogError)
    (p' : UniswapV2Pool) (h : p.sync_from_log l = .err e p') : p' = p := by
  unfold UniswapV2Pool.sync_from_log at h
  split at h
  · cases hbn : l.blockNumber with
    | none => simp [hbn] at h
    | some bn =>
      cases hli : l.logIndex with
      | none => simp [hbn, hli] at h
      | some li =>
        simp only [hbn, hli] at h
        split at h
        · injection h with h1 h2
          exact h2.symm
        · cases hp : l.payload with
          | none =>
            simp only [hp] at h
            injection h with h1 h2
            exact h2.symm
          | some pay =>
            simp only [hp] at h
            cases h
  · injection h with h1 h2
    exact h2.symm

theorem vault_sync_err_unchanged (v : ERC4626Vault) (l : Log) (e : EventLogError)
    (v' : ERC4626Vault) (h : v.sync_from_log l = .err e v') : v' = v := by
  unfold ERC4626Vault.sync_from_log at h
  cases hbn : l.blockNumber with
  | none =>
    simp only [hbn] at h
    injection h with h1 h2
    exact h2.symm
  | some bn =>
    cases hli : l.logIndex with
    | none =>
      simp only [hbn, hli] at h
      injection h with h1 h2
      exact h2.symm
    | some li =>
      simp only [hbn, hli] at h
      split at h
      · injection h with h1 h2
        exact h2.symm
      · split at h
        · cases hp : l.payload with
          | none =>
            simp only [hp] at h
            injection h with h1 h2
            exact h2.symm
          | some pay =>
            simp only [hp] at h
            split at h
            · cases h
            · cases h
        · split at h
          · cases hp : l.payload with
            | none =>
              simp only [hp] at h
              injection h with h1 h2
              exact h2.symm
            | some pay =>
              simp only [hp] at h
              split at h
              · cases h
              · cases h
          · injection h with h1 h2
            exact h2.symm

theorem pool_sync_ok_inv (p : UniswapV2Pool) (l : Log) (p' : UniswapV2Pool)
    (h : p.sync_from_log l = .ok p') :
    l.topic0 = SYNC_EVENT_SIGNATURE ∧ ∃ bn li, l.blockNumber = some bn ∧
      l.logIndex = some li ∧ ¬ cursorLe (bn, li) p.last_synced_log ∧
      p'.last_synced_log = (bn, li) := by
  unfold UniswapV2Pool.sync_from_log at h
  split at h
  · next htop =>
    refine ⟨htop, ?_⟩
    cases hbn : l.blockNumber with
    | none => simp [hbn] at h
    | some bn =>
      cases hli : l.logIndex with
      | none => simp [hbn, hli] at h
      | some li =>
        simp only [hbn, hli] at h
        split at h
        · cases h
        · next hcur =>
          cases hp : l.payload with
          | none => simp [hp] at h
          | some pay =>
            simp only [hp] at h
            injection h with h1
            exact ⟨bn, li, rfl, rfl, hcur, by rw [← h1]⟩
  · cases h

theorem vault_sync_ok_inv (v : ERC4626Vault) (l : Log) (v' : ERC4626Vault)
    (h : v.sync_from_log l = .ok v') :
    ∃ bn li, l.blockNumber = some bn ∧ l.logIndex = some li ∧
      ¬ cursorLe (bn, li) v.last_synced ∧ v'.last_synced = (bn, li) := by
  unfold ERC4626Vault.sync_from_log at h
  cases hbn : l.blockNumber with
  | none => simp [hbn] at h
  | some bn =>
    cases hli : l.logIndex with
    | none => simp [hbn, hli] at h
    | some li =>
      simp only [hbn, hli] at h
      split at h
      · cases h
      · next hcur =>
        refine ⟨bn, li, rfl, rfl, hcur, ?_⟩
        split at h
        · cases hp : l.payload with
          | none => simp [hp] at h
          | some pay =>
            simp only [hp] at h
            split at h
            · injection h with h1
              rw [← h1]
            · cases h
        · split at h
          · cases hp : l.payload with
            | none => simp [hp] at h
            | some pay =>
              simp only [hp] at h
              split at h
              · injection h with h1
                rw [← h1]
              · cases h
          · cases h

theorem cursorLe_of_not_le (a b : Nat × Nat) (h : ¬ cursorLe a b) : cursorLe b a := by
  unfold cursorLe at *
  omega

/-! ### Claims C2, C6 and C9 -/

/-- **C2** (amended).  For an ERC-4626 vault, any log with both positional
fields present whose cursor is not strictly greater than the vault's
last-synced cursor fails with `AlreadySynced` and leaves the vault
unchanged; for a constant-product pool the same holds for logs carrying the
`Sync` signature (a stale log with an unrecognized signature instead fails
with `InvalidEventSignature` — see `c2_stale_wrong_signature`).  For both
venues, re-applying an already-applied log fails with `AlreadySynced`
leaving the venue unchanged (idempotence), and the cursor is non-decreasing
across any `sync_from_log` call. -/
theorem c2_sync_idempotent_monotone (p : UniswapV2Pool) (v : ERC4626Vault)
    (l : Log) (bn li : Nat) :
    (l.blockNumber = some bn → l.logIndex = some li →
      cursorLe (bn, li) v.last_synced →
      v.sync_from_log l = .err .logAlreadySynced v)
    ∧ (l.topic0 = SYNC_EVENT_SIGNATURE → l.blockNumber = some bn →
      l.logIndex = some li → cursorLe (bn, li) p.last_synced_log →
      p.sync_from_log l = .err .logAlreadySynced p)
    ∧ (∀ p', p.sync_from_log l = .ok p' →
        p'.sync_from_log l = .err .logAlreadySynced p'
        ∧ cursorLe p.last_synced_log p'.last_synced_log)
    ∧ (∀ v', v.sync_from_log l = .ok v' →
        v'.sync_from_log l = .err .logAlreadySynced v'
        ∧ cursorLe v.last_synced v'.last_synced) := by
  refine ⟨?_, ?_, ?_, ?_⟩
  · intro hbn hli hcur
    unfold ERC4626Vault.sync_from_log
    rw [hbn, hli]
    simp only [if_pos hcur]
  · intro htop hbn hli hcur
    unfold UniswapV2Pool.sync_from_log
    rw [if_pos htop, hbn, hli]
    simp only [if_pos hcur]
  · intro p' hok
    obtain ⟨htop, bn, li, hbn, hli, hcur, hlast⟩ := pool_sync_ok_inv p l p' hok
    constructor
    · unfold UniswapV2Pool.sync_from_log
      rw [if_pos htop, hbn, hli]
      have : cursorLe (bn, li) p'.last_synced_log := by
        rw [hlast]; unfold cursorLe; omega
      simp only [if_pos this]
    · rw [hlast]
      exact cursorLe_of_not_le _ _ hcur
  · intro v' hok
    obtain ⟨bn, li, hbn, hli, hcur, hlast⟩ := vault_sync_ok_inv v l v' hok
    constructor
    · unfold ERC4626Vault.sync_from_log
      rw [hbn, hli]
      have : cursorLe (bn, li) v'.last_synced := by
        rw [hlast]; unfold cursorLe; omega
      simp only [if_pos this]
    · rw [hlast]
      exact cursorLe_of_not_le _ _ hcur

/-- Witness for C2: a vault whose cursor is `(5, 5)` rejects a log at the
same cursor with `AlreadySynced`, unchanged. -/
theorem c2_sync_idempotent_monotone_witness :
    ERC4626Vault.sync_from_log ⟨1, 18, 2, 18, 100, 100, 0, 0, (5, 5)⟩
        ⟨DEPOSIT_EVENT_SIGNATURE, some 5, some 5, some (1, 1)⟩
      = .err .logAlreadySynced ⟨1, 18, 2, 18, 100, 100, 0, 0, (5, 5)⟩ :=
  (c2_sync_idempotent_monotone ⟨1, .default, .default, 0, 0, (0, 0), 300⟩
    ⟨1, 18, 2, 18, 100, 100, 0, 0, (5, 5)⟩
    ⟨DEPOSIT_EVENT_SIGNATURE, some 5, some 5, some (1, 1)⟩ 5 5).1 rfl rfl
    (by decide)

/-- **C2** counterexample: the claim says *every* stale log fails with
`AlreadySynced`, but a constant-product pool classifies the signature
first: a stale log carrying the `Deposit` signature fails with
`InvalidEventSignature` instead. -/
theorem c2_stale_wrong_signature :
    UniswapV2Pool.sync_from_log ⟨1, .default, .default, 10, 10, (5, 5), 300⟩
        ⟨DEPOSIT_EVENT_SIGNATURE, some 1, some 1, some (2, 3)⟩
      = .err .invalidEventSignature ⟨1, .default, .default, 10, 10, (5, 5), 300⟩
    ∧ cursorLe (1, 1) (5, 5)
    ∧ EventLogError.invalidEventSignature ≠ EventLogError.logAlreadySynced := by
  refine ⟨by decide, by unfold cursorLe; omega, by decide⟩

/-- **C9**.  Whenever `sync_from_log` returns an error — already-synced,
invalid event signature, missing positional field, or payload decode
failure — the venue is returned exactly as it was: no partial update
happens on any error path, for either venue kind. -/
theorem c9_err_no_partial_update :
    (∀ (p p' : UniswapV2Pool) (l : Log) (e : EventLogError),
        p.sync_from_log l = .err e p' → p' = p)
    ∧ (∀ (v v' : ERC4626Vault) (l : Log) (e : EventLogError),
        v.sync_from_log l = .err e v' → v' = v) :=
  ⟨fun p p' l e h => pool_sync_err_unchanged p l e p' h,
   fun v v' l e h => vault_sync_err_unchanged v l e v' h⟩

/-- Witness for C9: a stale `Sync` log leaves a concrete pool unchanged. -/
theorem c9_err_no_partial_update_witness :
    (⟨1, .default, .default, 10, 10, (5, 5), 300⟩ : UniswapV2Pool)
      = ⟨1, .default, .default, 10, 10, (5, 5), 300⟩ :=
  c9_err_no_partial_update.1 ⟨1, .default, .default, 10, 10, (5, 5), 300⟩
    ⟨1, .default, .default, 10, 10, (5, 5), 300⟩
    ⟨SYNC_EVENT_SIGNATURE, some 1, some 1, some (2, 3)⟩ .logAlreadySynced
    (by decide)

/-- **C6** (amended).  For an ERC-4626 vault, a log with a missing
block-number (resp. log-index) field fails with the
`MissingBlockNumber`-kind (resp. `MissingLogIndex`-kind) error — the fields
are checked before the signature, so this holds for every log.  For a
constant-product pool the claim fails: inside the recognized `Sync`-signature
branch the fields are taken with `.unwrap()`, so a missing field panics
instead of returning an error (see `c6_pool_unwrap_panics`). -/
theorem c6_missing_field_errors (v : ERC4626Vault) (p : UniswapV2Pool) (l : Log) :
    (l.blockNumber = none → v.sync_from_log l = .err .logBlockNumberNotFound v)
    ∧ (∀ bn, l.blockNumber = some bn → l.logIndex = none →
        v.sync_from_log l = .err .logIndexNotFound v)
    ∧ (l.topic0 = SYNC_EVENT_SIGNATURE →
        l.blockNumber = none ∨ l.logIndex = none →
        p.sync_from_log l = .panic) := by
  refine ⟨?_, ?_, ?_⟩
  · intro hbn
    unfold ERC4626Vault.sync_from_log
    rw [hbn]
  · intro bn hbn hli
    unfold ERC4626Vault.sync_from_log
    rw [hbn, hli]
  · intro htop hmiss
    unfold UniswapV2Pool.sync_from_log
    rw [if_pos htop]
    rcases hmiss with hbn | hli
    · rw [hbn]
    · rw [hli]
      cases l.blockNumber <;> rfl

/-- Witness for C6: a concrete vault returns the missing-block-number error
on a log with no block number. -/
theorem c6_missing_field_errors_witness :
    ERC4626Vault.sync_from_log ⟨1, 18, 2, 18, 100, 100, 0, 0, (5, 5)⟩
        ⟨DEPOSIT_EVENT_SIGNATURE, none, some 1, some (1, 1)⟩
      = .err .logBlockNumberNotFound ⟨1, 18, 2, 18, 100, 100, 0, 0, (5, 5)⟩ :=
  (c6_missing_field_errors ⟨1, 18, 2, 18, 100, 100, 0, 0, (5, 5)⟩
    ⟨1, .default, .default, 0, 0, (0, 0), 300⟩
    ⟨DEPOSIT_EVENT_SIGNATURE, none, some 1, some (1, 1)⟩).1 rfl

/-- **C6** counterexample: a constant-product pool receiving a recognized
`Sync` log whose block-number field is absent panics (`unwrap` on `None`)
rather than returning the `MissingBlockNumber` error value. -/
theorem c6_pool_unwrap_panics :
    UniswapV2Pool.sync_from_log ⟨1, .default, .default, 0, 0, (0, 0), 300⟩
        ⟨SYNC_EVENT_SIGNATURE, none, some 1, some (5, 6)⟩
      = .panic
    ∧ ∀ (e : EventLogError) (q : UniswapV2Pool),
        (SyncResult.panic : SyncResult UniswapV2Pool) ≠ .err e q := by
  refine ⟨by decide, ?_⟩
  intro e q h
  cases h

/-! ## Constant-product swap math (src/amm/uniswap_v2/mod.rs) -/

/-- `UniswapV2Pool::get_amount_out` (src/amm/uniswap_v2/mod.rs, lines
291-305).  `fee` is the pool's fee field (`u32`); the fee multiplier is
`(10000 - fee / 10) / 10` in integer arithmetic, and the denominator scale
is `1000`.  All `U256` arithmetic panics on overflow (`none`); the `u32`
subtraction underflows (panics, `none`) when `fee / 10 > 10000`. -/
def getAmountOut (fee amount_in reserve_in reserve_out : Nat) : Option Nat :=
  if amount_in = 0 ∨ reserve_in = 0 ∨ reserve_out = 0 then some 0
  else do
    let d ← checkedSubU32 10000 (fee / 10)
    let f := d / 10
    let amount_in_with_fee ← checkedMul256 amount_in f
    let numerator ← checkedMul256 amount_in_with_fee reserve_out
    let ri1000 ← checkedMul256 reserve_in 1000
    let denominator ← checkedAdd256 ri1000 amount_in_with_fee
    pure (numerator / denominator)

/-- `UniswapV2Pool::simulate_swap` (src/amm/uniswap_v2/mod.rs, lines
145-159): dispatches `get_amount_out` on (`reserve_0`, `reserve_1`) when
`token_in` is `token_a` and on the swapped reserves otherwise.  The Rust
function always returns `Ok`; the `Option` models the panics of the inner
arithmetic. -/
def UniswapV2Pool.simulate_swap (p : UniswapV2Pool) (token_in amount_in : Nat) :
    Option Nat :=
  if p.token_a.address = token_in then
    getAmountOut p.fee amount_in p.reserve_0 p.reserve_1
  else
    getAmountOut p.fee amount_in p.reserve_1 p.reserve_0

/-- `UniswapV2Pool::simulate_swap_mut` (src/amm/uniswap_v2/mod.rs, lines
161-195): computes the output like `simulate_swap`, then adds `amount_in`
to the input-side reserve (`as_u128` then `u128 +=`, both panicking) and
subtracts the output from the output-side reserve (`u128 -=`, panicking on
underflow). -/
def UniswapV2Pool.simulate_swap_mut (p : UniswapV2Pool) (token_in amount_in : Nat) :
    Option (Nat × UniswapV2Pool) :=
  if p.token_a.address = token_in then do
    let amount_out ← getAmountOut p.fee amount_in p.reserve_0 p.reserve_1
    let ain ← asU128 amount_in
    let r0 ← checkedAddU128 p.reserve_0 ain
    let aout ← asU128 amount_out
    let r1 ← checkedSubU128 p.reserve_1 aout
    pure (amount_out, { p with reserve_0 := r0, reserve_1 := r1 })
  else do
    let amount_out ← getAmountOut p.fee amount_in p.reserve_1 p.reserve_0
    let aout ← asU128 amount_out
    let r0 ← checkedSubU128 p.reserve_0 aout
    let ain ← asU128 amount_in
    let r1 ← checkedAddU128 p.reserve_1 ain
    pure (amount_out, { p with reserve_0 := r0, reserve_1 := r1 })

/-- The closed form computed by `get_amount_out` under no-overflow bounds:
`⌊a·m·r_out / (1000·r_in + a·m)⌋` with `m = (10000 - ⌊fee/10⌋)/10`. -/
theorem getAmountOut_eq (fee a rin rout : Nat) (ha : a ≠ 0) (hrin : rin ≠ 0)
    (hrout : rout ≠ 0) (hf : fee ≤ 100000) (hab : a < 2 ^ 112)
    (hrinb : rin < 2 ^ 128) (hroutb : rout < 2 ^ 128) :
    getAmountOut fee a rin rout
      = some (a * ((10000 - fee / 10) / 10) * rout
          / (rin * 1000 + a * ((10000 - fee / 10) / 10))) := by
  have hm : (10000 - fee / 10) / 10 ≤ 1000 := by omega
  have h1 : a * ((10000 - fee / 10) / 10) < 2 ^ 122 := by
    calc a * ((10000 - fee / 10) / 10) ≤ a * 1000 := Nat.mul_le_mul_left _ hm
    _ < 2 ^ 112 * 1000 := Nat.mul_lt_mul_of_lt_of_le hab (le_refl _) (by norm_num)
    _ < 2 ^ 122 := by norm_num
  have h2 : a * ((10000 - fee / 10) / 10) * rout < 2 ^ 250 := by
    calc a * ((10000 - fee / 10) / 10) * rout < 2 ^ 122 * 2 ^ 128 :=
          Nat.mul_lt_mul_of_lt_of_le h1 (show rout ≤ 2 ^ 128 by omega) (by norm_num)
    _ = 2 ^ 250 := by norm_num
  have h3 : rin * 1000 < 2 ^ 138 := by
    calc rin * 1000 < 2 ^ 128 * 1000 :=
          Nat.mul_lt_mul_of_lt_of_le hrinb (le_refl _) (by norm_num)
    _ < 2 ^ 138 := by norm_num
  unfold getAmountOut
  rw [if_neg (by tauto)]
  unfold checkedSubU32 checkedMul256 checkedAdd256 u256size
  rw [if_pos (by omega)]
  simp only [Option.bind_eq_bind, Option.some_bind]
  rw [if_pos (by omega)]
  simp only [Option.some_bind]
  rw [if_pos (by omega)]
  simp only [Option.some_bind]
  rw [if_pos (by omega)]
  simp only [Option.some_bind]
  rw [if_pos (by omega)]
  simp only [Option.some_bind]
  rfl

theorem div_lt_of_pos_den (w rout rin1000 : Nat) (h1000 : 0 < rin1000)
    (hrout : 0 < rout) : w * rout / (rin1000 + w) < rout := by
  rw [Nat.div_lt_iff_lt_mul (by omega)]
  have he : rout * (rin1000 + w) = w * rout + rout * rin1000 := by ring
  have hp : 0 < rout * rin1000 := Nat.mul_pos hrout h1000
  omega

/-- Whenever `get_amount_out` returns, the returned amount is strictly less
than the output reserve. -/
theorem getAmountOut_lt_reserve_out (fee a rin rout : Nat) (hrin : 0 < rin)
    (hrout : 0 < rout) :
    ∀ v, getAmountOut fee a rin rout = some v → v < rout := by
  intro v h
  unfold getAmountOut at h
  split at h
  · injection h with h1
    omega
  · unfold checkedSubU32 checkedMul256 checkedAdd256 u256size at h
    simp only [Option.bind_eq_bind] at h
    split at h
    · simp only [Option.some_bind] at h
      split at h
      · simp only [Option.some_bind] at h
        split at h
        · simp only [Option.some_bind] at h
          split at h
          · simp only [Option.some_bind] at h
            split at h
            · simp only [Option.some_bind] at h
              injection h with h1
              rw [← h1]
              exact div_lt_of_pos_den _ _ _ (Nat.mul_pos hrin (by norm_num)) hrout
            · cases h
          · cases h
        · cases h
      · cases h
    · simp at h

/-! ### Claims C4 and C10 -/

/-- Stated from the claim's words (spec section 4.2) for comparison with
the source: `⌊amount_in·(10000−f)·reserve_out /
(10000·reserve_in + amount_in·(10000−f))⌋` with the fee in
parts-per-10000. -/
def specAmountOut (fee a rin rout : Nat) : Nat :=
  a * (10000 - fee) * rout / (10000 * rin + a * (10000 - fee))

/-- **C4** (amended).  `simulate_swap` dispatches `get_amount_out` on
`(reserve_0, reserve_1)` when `token_in` is `token_a` and on the swapped
pair otherwise, and `get_amount_out` computes
`⌊a·m·reserve_out / (1000·reserve_in + a·m)⌋` with the fee multiplier
`m = (10000 - ⌊fee/10⌋) / 10` in integer arithmetic — i.e. the pool's fee
field is scaled in parts-per-100000 and enters at 1/1000 granularity, not
the claimed `⌊a·(10000−f)·r_out / (10000·r_in + a·(10000−f))⌋` (refuted at
a concrete input by `c4_formula_counterexample`).  The claim's concrete
example still holds: fee=30, reserves 1000/1000, amount_in=10 yields 9. -/
theorem c4_swap_formula (p : UniswapV2Pool) (tin : Nat) (fee a rin rout : Nat)
    (ha : a ≠ 0) (hrin : rin ≠ 0) (hrout : rout ≠ 0) (hf : fee ≤ 100000)
    (hab : a < 2 ^ 112) (hrinb : rin < 2 ^ 128) (hroutb : rout < 2 ^ 128) :
    getAmountOut fee a rin rout
      = some (a * ((10000 - fee / 10) / 10) * rout
          / (rin * 1000 + a * ((10000 - fee / 10) / 10)))
    ∧ (p.token_a.address = tin →
        p.simulate_swap tin a = getAmountOut p.fee a p.reserve_0 p.reserve_1)
    ∧ (p.token_a.address ≠ tin →
        p.simulate_swap tin a = getAmountOut p.fee a p.reserve_1 p.reserve_0) := by
  refine ⟨getAmountOut_eq fee a rin rout ha hrin hrout hf hab hrinb hroutb, ?_, ?_⟩
  · intro htok
    unfold UniswapV2Pool.simulate_swap
    rw [if_pos htok]
  · intro htok
    unfold UniswapV2Pool.simulate_swap
    rw [if_neg htok]

/-- Witness for C4: the claim's concrete example — fee field 30, reserves
1000/1000, amount in 10 — returns 9. -/
theorem c4_swap_formula_witness : getAmountOut 30 10 1000 1000 = some 9 := by
  have h := (c4_swap_formula ⟨1, .default, .default, 1000, 1000, (0, 0), 30⟩ 0
    30 10 1000 1000 (by norm_num) (by norm_num) (by norm_num) (by norm_num)
    (by norm_num) (by norm_num) (by norm_num)).1
  rw [h]

/-- **C4** counterexample: at fee=30, reserves (1000, 1000000), amount_in
1000 the code returns 499749 while the claimed formula
`⌊a·(10000−f)·r_out / (10000·r_in + a·(10000−f))⌋` gives 499248. -/
theorem c4_formula_counterexample :
    UniswapV2Pool.simulate_swap ⟨1, ⟨7, "", 0⟩, ⟨8, "", 0⟩, 1000, 1000000, (0, 0), 30⟩ 7 1000
      = some 499749
    ∧ specAmountOut 30 1000 1000 1000000 = 499248
    ∧ (499749 : Nat) ≠ 499248 := by
  refine ⟨by decide, by decide, by decide⟩

/-- **C10**.  For a pool with positive reserves and fee at most 100000 (so
the fee-multiplier subtraction `10000 - fee/10` cannot underflow), whenever
`get_amount_out` returns a value it is strictly less than the output
reserve; consequently, in `simulate_swap_mut` the subtraction of the output
amount from the output reserve never underflows: under in-range reserves
the whole mutation succeeds and produces exactly the add/subtract update. -/
theorem c10_swap_mut_no_underflow (p : UniswapV2Pool) (token_in a : Nat)
    (h0 : 0 < p.reserve_0) (h1 : 0 < p.reserve_1) (hf : p.fee ≤ 100000) :
    (∀ v, getAmountOut p.fee a p.reserve_0 p.reserve_1 = some v → v < p.reserve_1)
    ∧ (∀ v, getAmountOut p.fee a p.reserve_1 p.reserve_0 = some v → v < p.reserve_0)
    ∧ (p.token_a.address = token_in →
        ∀ v, getAmountOut p.fee a p.reserve_0 p.reserve_1 = some v →
        a < 2 ^ 128 → p.reserve_0 + a < 2 ^ 128 → p.reserve_1 < 2 ^ 128 →
        p.simulate_swap_mut token_in a
          = some (v, { p with reserve_0 := p.reserve_0 + a,
                              reserve_1 := p.reserve_1 - v }))
    ∧ (p.token_a.address ≠ token_in →
        ∀ v, getAmountOut p.fee a p.reserve_1 p.reserve_0 = some v →
        a < 2 ^ 128 → p.reserve_1 + a < 2 ^ 128 → p.reserve_0 < 2 ^ 128 →
        p.simulate_swap_mut token_in a
          = some (v, { p with reserve_0 := p.reserve_0 - v,
                              reserve_1 := p.reserve_1 + a })) := by
  refine ⟨fun v h => getAmountOut_lt_reserve_out _ _ _ _ h0 h1 v h,
          fun v h => getAmountOut_lt_reserve_out _ _ _ _ h1 h0 v h, ?_, ?_⟩
  · intro htok v hv hab hadd hr1b
    have hlt : v < p.reserve_1 := getAmountOut_lt_reserve_out _ _ _ _ h0 h1 v hv
    unfold UniswapV2Pool.simulate_swap_mut
    rw [if_pos htok, hv]
    unfold asU128 checkedAddU128 checkedSubU128
    simp only [Option.bind_eq_bind, Option.some_bind]
    rw [if_pos hab]
    simp only [Option.some_bind]
    rw [if_pos hadd]
    simp only [Option.some_bind]
    rw [if_pos (by omega)]
    simp only [Option.some_bind]
    rw [if_pos (by omega)]
    simp only [Option.some_bind]
    rfl
  · intro htok v hv hab hadd hr0b
    have hlt : v < p.reserve_0 := getAmountOut_lt_reserve_out _ _ _ _ h1 h0 v hv
    unfold UniswapV2Pool.simulate_swap_mut
    rw [if_neg htok, hv]
    unfold asU128 checkedAddU128 checkedSubU128
    simp only [Option.bind_eq_bind, Option.some_bind]
    rw [if_pos (by omega)]
    simp only [Option.some_bind]
    rw [if_pos (by omega)]
    simp only [Option.some_bind]
    rw [if_pos hab]
    simp only [Option.some_bind]
    rw [if_pos hadd]
    simp only [Option.some_bind]
    rfl

/-- Witness for C10: fee 300 (0.30%), reserves 1000/1000, amount in 10
yields 9 < 1000 and the mutation succeeds with reserves (1010, 991). -/
theorem c10_swap_mut_no_underflow_witness :
    UniswapV2Pool.simulate_swap_mut ⟨1, ⟨7, "", 0⟩, ⟨8, "", 0⟩, 1000, 1000, (0, 0), 300⟩ 7 10
      = some (9, ⟨1, ⟨7, "", 0⟩, ⟨8, "", 0⟩, 1010, 991, (0, 0), 300⟩) := by
  have h := (c10_swap_mut_no_underflow
    ⟨1, ⟨7, "", 0⟩, ⟨8, "", 0⟩, 1000, 1000, (0, 0), 300⟩ 7 10
    (by norm_num) (by norm_num) (by norm_num)).2.2.1 rfl 9 (by decide)
    (by norm_num) (by norm_num) (by norm_num)
  exact h

/-! ## Q64.64 price calculation (claim C7) -/

/-- Rust `u8 as i8` cast: wraps into `[-128, 127]`. -/
def i8OfU8 (n : Nat) : Int :=
  if n % 256 < 128 then ((n % 256 : Nat) : Int) else ((n % 256 : Nat) : Int) - 256

/-- Rust `i8` subtraction (debug profile): panics (`none`) when the
difference leaves `[-128, 127]`. -/
def i8Sub (a b : Int) : Option Int :=
  if -128 ≤ a - b ∧ a - b ≤ 127 then some (a - b) else none

/-- `10u128.pow(k)`: panics (`none`) when the power overflows `u128`. -/
def pow10u128 (k : Nat) : Option Nat :=
  if 10 ^ k < 2 ^ 128 then some (10 ^ k) else none

/-- `UniswapV2Pool::calculate_price_64_x_64` (src/amm/uniswap_v2/mod.rs,
lines 261-288): compute the decimal shift `token_a.decimals as i8 -
token_b.decimals as i8`, scale the lower-decimals side's reserve by
`10^|shift|`, then return the Q64.64 constant for 1.0 when the base-token
side's normalized reserve is zero and `div_uu` of the opposite pair
otherwise.  `U128_0X10000000000000000 = 2^64`. -/
def UniswapV2Pool.calculate_price_64_x_64 (p : UniswapV2Pool) (base_token : Nat) :
    Option (Except ArithmeticError Nat) := do
  let shift ← i8Sub (i8OfU8 p.token_a.decimals) (i8OfU8 p.token_b.decimals)
  let (r0, r1) ←
    if shift < 0 then do
      let m ← pow10u128 shift.natAbs
      let r0 ← checkedMul256 p.reserve_0 m
      pure (r0, p.reserve_1)
    else do
      let m ← pow10u128 shift.toNat
      let r1 ← checkedMul256 p.reserve_1 m
      pure (p.reserve_0, r1)
  pure (if base_token = p.token_a.address then
          if r0 = 0 then .ok (2 ^ 64) else divUU r1 r0
        else if r1 = 0 then .ok (2 ^ 64) else divUU r0 r1)

/-- `ERC4626Vault::calculate_price_64_x_64` (src/amm/erc_4626/mod.rs, lines
241-271): same structure over `(vault_reserve, asset_reserve)` with the
shift `vault_token_decimals as i8 - asset_token_decimals as i8`. -/
def ERC4626Vault.calculate_price_64_x_64 (v : ERC4626Vault) (base_token : Nat) :
    Option (Except ArithmeticError Nat) := do
  let shift ← i8Sub (i8OfU8 v.vault_token_decimals) (i8OfU8 v.asset_token_decimals)
  let (rv, ra) ←
    if shift < 0 then do
      let m ← pow10u128 shift.natAbs
      let rv ← checkedMul256 v.vault_reserve m
      pure (rv, v.asset_reserve)
    else do
      let m ← pow10u128 shift.toNat
      let ra ← checkedMul256 v.asset_reserve m
      pure (v.vault_reserve, ra)
  pure (if base_token = v.vault_token then
          if rv = 0 then .ok (2 ^ 64) else divUU ra rv
        else if ra = 0 then .ok (2 ^ 64) else divUU rv ra)

theorem i8OfU8_small (n : Nat) (h : n ≤ 38) : i8OfU8 n = (n : Int) := by
  unfold i8OfU8
  rw [Nat.mod_eq_of_lt (by omega), if_pos (by omega)]

theorem i8Sub_small (a b : Nat) (ha : a ≤ 38) (hb : b ≤ 38) :
    i8Sub (i8OfU8 a) (i8OfU8 b) = some ((a : Int) - b) := by
  rw [i8OfU8_small a ha, i8OfU8_small b hb]
  unfold i8Sub
  rw [if_pos (by omega)]

theorem pow10u128_small (k : Nat) (h : k ≤ 38) : pow10u128 k = some (10 ^ k) := by
  unfold pow10u128
  rw [if_pos ?_]
  calc (10 : Nat) ^ k ≤ 10 ^ 38 := Nat.pow_le_pow_right (by norm_num) h
  _ < 2 ^ 128 := by norm_num

theorem pow10_lt (k : Nat) (h : k ≤ 38) : (10 : Nat) ^ k < 2 ^ 128 := by
  calc (10 : Nat) ^ k ≤ 10 ^ 38 := Nat.pow_le_pow_right (by norm_num) h
  _ < 2 ^ 128 := by norm_num

/-- Reduction of the pool price calculation under in-range decimals and
reserves: the normalized reserves vanish exactly when the raw ones do. -/
theorem pool_price_reduces (p : UniswapV2Pool) (base : Nat)
    (hpa : p.token_a.decimals ≤ 38) (hpb : p.token_b.decimals ≤ 38)
    (hpr0 : p.reserve_0 < 2 ^ 128) (hpr1 : p.reserve_1 < 2 ^ 128) :
    ∃ r0 r1 : Nat,
      p.calculate_price_64_x_64 base
        = some (if base = p.token_a.address then
                  if r0 = 0 then .ok (2 ^ 64) else divUU r1 r0
                else if r1 = 0 then .ok (2 ^ 64) else divUU r0 r1)
      ∧ (r0 = 0 ↔ p.reserve_0 = 0) ∧ (r1 = 0 ↔ p.reserve_1 = 0) := by
  unfold UniswapV2Pool.calculate_price_64_x_64
  rw [i8Sub_small _ _ hpa hpb]
  simp only [Option.bind_eq_bind, Option.some_bind]
  by_cases hs : (p.token_a.decimals : Int) - p.token_b.decimals < 0
  · rw [if_pos hs]
    have hk : ((p.token_a.decimals : Int) - p.token_b.decimals).natAbs ≤ 38 := by omega
    rw [pow10u128_small _ hk]
    simp only [Option.some_bind]
    unfold checkedMul256 u256size
    rw [if_pos (hi_lo_split_lt _ _ (by omega) (pow10_lt _ hk))]
    simp only [Option.some_bind]
    refine ⟨_, _, rfl, ?_, Iff.rfl⟩
    constructor
    · intro h
      rcases Nat.mul_eq_zero.1 h with h0 | h0
      · exact h0
      · exact absurd h0 (Nat.pos_pow_of_pos _ (by norm_num : 0 < 10)).ne'
    · intro h
      rw [h, Nat.zero_mul]
  · rw [if_neg hs]
    have hk : ((p.token_a.decimals : Int) - p.token_b.decimals).toNat ≤ 38 := by omega
    rw [pow10u128_small _ hk]
    simp only [Option.some_bind]
    unfold checkedMul256 u256size
    rw [if_pos (hi_lo_split_lt _ _ (by omega) (pow10_lt _ hk))]
    simp only [Option.some_bind]
    refine ⟨_, _, rfl, Iff.rfl, ?_⟩
    constructor
    · intro h
      rcases Nat.mul_eq_zero.1 h with h0 | h0
      · exact h0
      · exact absurd h0 (Nat.pos_pow_of_pos _ (by norm_num : 0 < 10)).ne'
    · intro h
      rw [h, Nat.zero_mul]

/-- Reduction of the vault price calculation, as for the pool. -/
theorem vault_price_reduces (v : ERC4626Vault) (base : Nat)
    (hva : v.vault_token_decimals ≤ 38) (hvb : v.asset_token_decimals ≤ 38)
    (hvr : v.vault_reserve < 2 ^ 128) (har : v.asset_reserve < 2 ^ 128) :
    ∃ rv ra : Nat,
      v.calculate_price_64_x_64 base
        = some (if base = v.vault_token then
                  if rv = 0 then .ok (2 ^ 64) else divUU ra rv
                else if ra = 0 then .ok (2 ^ 64) else divUU rv ra)
      ∧ (rv = 0 ↔ v.vault_reserve = 0) ∧ (ra = 0 ↔ v.asset_reserve = 0) := by
  unfold ERC4626Vault.calculate_price_64_x_64
  rw [i8Sub_small _ _ hva hvb]
  simp only [Option.bind_eq_bind, Option.some_bind]
  by_cases hs : (v.vault_token_decimals : Int) - v.asset_token_decimals < 0
  · rw [if_pos hs]
    have hk : ((v.vault_token_decimals : Int) - v.asset_token_decimals).natAbs ≤ 38 := by omega
    rw [pow10u128_small _ hk]
    simp only [Option.some_bind]
    unfold checkedMul256 u256size
    rw [if_pos (hi_lo_split_lt _ _ (by omega) (pow10_lt _ hk))]
    simp only [Option.some_bind]
    refine ⟨_, _, rfl, ?_, Iff.rfl⟩
    constructor
    · intro h
      rcases Nat.mul_eq_zero.1 h with h0 | h0
      · exact h0
      · exact absurd h0 (Nat.pos_pow_of_pos _ (by norm_num : 0 < 10)).ne'
    · intro h
      rw [h, Nat.zero_mul]
  · rw [if_neg hs]
    have hk : ((v.vault_token_decimals : Int) - v.asset_token_decimals).toNat ≤ 38 := by omega
    rw [pow10u128_small _ hk]
    simp only [Option.some_bind]
    unfold checkedMul256 u256size
    rw [if_pos (hi_lo_split_lt _ _ (by omega) (pow10_lt _ hk))]
    simp only [Option.some_bind]
    refine ⟨_, _, rfl, Iff.rfl, ?_⟩
    constructor
    · intro h
      rcases Nat.mul_eq_zero.1 h with h0 | h0
      · exact h0
      · exact absurd h0 (Nat.pos_pow_of_pos _ (by norm_num : 0 < 10)).ne'
    · intro h
      rw [h, Nat.zero_mul]

/-! ### Claim C7 -/

/-- **C7**.  For a constant-product pool and for an ERC-4626 vault with
in-range decimals and reserves, if the raw (equivalently, the
decimal-normalized) reserve on the base-token side is zero then
`calculate_price_64_x_64(base_token)` succeeds and returns the Q64.64
representation of 1.0, namely `2^64` — no divide-by-zero failure.  (The
spec's `calculate_price` is this value converted to `f64`; `2^64` converts
exactly to 1.0.) -/
theorem c7_zero_reserve_price_one (p : UniswapV2Pool) (v : ERC4626Vault) (base : Nat)
    (hpa : p.token_a.decimals ≤ 38) (hpb : p.token_b.decimals ≤ 38)
    (hpr0 : p.reserve_0 < 2 ^ 128) (hpr1 : p.reserve_1 < 2 ^ 128)
    (hva : v.vault_token_decimals ≤ 38) (hvb : v.asset_token_decimals ≤ 38)
    (hvr : v.vault_reserve < 2 ^ 128) (har : v.asset_reserve < 2 ^ 128) :
    (base = p.token_a.address → p.reserve_0 = 0 →
      p.calculate_price_64_x_64 base = some (.ok (2 ^ 64)))
    ∧ (base ≠ p.token_a.address → p.reserve_1 = 0 →
      p.calculate_price_64_x_64 base = some (.ok (2 ^ 64)))
    ∧ (base = v.vault_token → v.vault_reserve = 0 →
      v.calculate_price_64_x_64 base = some (.ok (2 ^ 64)))
    ∧ (base ≠ v.vault_token → v.asset_reserve = 0 →
      v.calculate_price_64_x_64 base = some (.ok (2 ^ 64))) := by
  obtain ⟨r0, r1, hpe, hr0, hr1⟩ := pool_price_reduces p base hpa hpb hpr0 hpr1
  obtain ⟨rv, ra, hve, hrv, hra⟩ := vault_price_reduces v base hva hvb hvr har
  refine ⟨?_, ?_, ?_, ?_⟩
  · intro hb h0
    rw [hpe, if_pos hb, if_pos (hr0.2 h0)]
  · intro hb h0
    rw [hpe, if_neg hb, if_pos (hr1.2 h0)]
  · intro hb h0
    rw [hve, if_pos hb, if_pos (hrv.2 h0)]
  · intro hb h0
    rw [hve, if_neg hb, if_pos (hra.2 h0)]

/-- Witness for C7: a freshly created vault (all fields zero) prices at
Q64.64 1.0 for either base token. -/
theorem c7_zero_reserve_price_one_witness :
    ERC4626Vault.calculate_price_64_x_64 ERC4626Vault.default 0 = some (.ok (2 ^ 64))
    ∧ ERC4626Vault.calculate_price_64_x_64 ERC4626Vault.default 1 = some (.ok (2 ^ 64)) := by
  constructor
  · exact (c7_zero_reserve_price_one ⟨1, .default, .default, 0, 0, (0, 0), 300⟩
      ERC4626Vault.default 0 (by decide) (by decide) (by decide) (by decide)
      (by decide) (by decide) (by decide) (by decide)).2.2.1 rfl rfl
  · exact (c7_zero_reserve_price_one ⟨1, .default, .default, 0, 0, (0, 0), 300⟩
      ERC4626Vault.default 1 (by decide) (by decide) (by decide) (by decide)
      (by decide) (by decide) (by decide) (by decide)).2.2.2 (by decide) rfl

/-! ## Checkpoint (src/sync/checkpoint.rs)

`std::collections::HashMap` is embedded as an association list with unique
keys; `insert` replaces in place, `extend` folds `insert` over the incoming
entries — the semantics of `HashMap::extend`.  Iteration order is the list
order; permutation lemmas below capture its irrelevance. -/

/-- Lookup in an association list (first match). -/
def mapLookup {α : Type} (m : List (Nat × α)) (k : Nat) : Option α :=
  match m with
  | [] => none
  | (k', v) :: rest => if k' = k then some v else mapLookup rest k

/-- `HashMap::insert`: replace the entry at `k` if present, else append. -/
def mapInsert {α : Type} (m : List (Nat × α)) (k : Nat) (v : α) : List (Nat × α) :=
  match m with
  | [] => [(k, v)]
  | (k', v') :: rest =>
    if k' = k then (k, v) :: rest else (k', v') :: mapInsert rest k v

/-- `HashMap::extend`: insert every entry of `other`, later entries
winning. -/
def mapExtend {α : Type} (m other : List (Nat × α)) : List (Nat × α) :=
  other.foldl (fun acc kv => mapInsert acc kv.1 kv.2) m

/-- The keys of the map are pairwise distinct. -/
def nodupKeys {α : Type} (m : List (Nat × α)) : Prop :=
  (m.map Prod.fst).Nodup

instance {α : Type} [DecidableEq α] (m : List (Nat × α)) :
    Decidable (nodupKeys m) := by
  unfold nodupKeys
  infer_instance

theorem mapLookup_insert {α : Type} (m : List (Nat × α)) (k : Nat) (v : α)
    (k' : Nat) :
    mapLookup (mapInsert m k v) k' = if k = k' then some v else mapLookup m k' := by
  induction m with
  | nil => simp [mapInsert, mapLookup]
  | cons kv rest ih =>
    obtain ⟨k0, v0⟩ := kv
    unfold mapInsert
    by_cases h0 : k0 = k
    · rw [if_pos h0]
      unfold mapLookup
      by_cases h1 : k = k'
      · rw [if_pos h1, if_pos h1]
      · rw [if_neg h1, if_neg h1, h0]
        unfold mapLookup
        rw [if_neg (by omega)]
    · rw [if_neg h0]
      unfold mapLookup
      by_cases h1 : k0 = k'
      · rw [if_pos h1, if_pos h1, if_neg (by omega)]
      · rw [if_neg h1, if_neg h1, ih]

theorem mapLookup_eq_none_of_not_mem {α : Type} (m : List (Nat × α)) (k : Nat)
    (h : ∀ kv ∈ m, kv.1 ≠ k) : mapLookup m k = none := by
  induction m with
  | nil => rfl
  | cons kv rest ih =>
    unfold mapLookup
    rw [if_neg (h kv (List.mem_cons_self _ _))]
    exact ih (fun kv' hm => h kv' (List.mem_cons_of_mem _ hm))

theorem mapLookup_cons {α : Type} (k0 : Nat) (v0 : α) (rest : List (Nat × α))
    (k : Nat) :
    mapLookup ((k0, v0) :: rest) k = if k0 = k then some v0 else mapLookup rest k := rfl

theorem mapExtend_lookup {α : Type} (a b : List (Nat × α)) (hb : nodupKeys b)
    (k : Nat) :
    mapLookup (mapExtend a b) k = (mapLookup b k).orElse (fun _ => mapLookup a k) := by
  induction b generalizing a with
  | nil => rfl
  | cons kv rest ih =>
    obtain ⟨k0, v0⟩ := kv
    have hrest : nodupKeys rest := (List.nodup_cons.1 hb).2
    have hk0 : k0 ∉ rest.map Prod.fst := (List.nodup_cons.1 hb).1
    unfold mapExtend
    simp only [List.foldl_cons]
    have hstep : rest.foldl (fun acc kv => mapInsert acc kv.1 kv.2) (mapInsert a k0 v0)
        = mapExtend (mapInsert a k0 v0) rest := rfl
    rw [hstep, ih _ hrest, mapLookup_cons]
    by_cases h1 : k0 = k
    · rw [if_pos h1]
      have hnone : mapLookup rest k = none := by
        apply mapLookup_eq_none_of_not_mem
        intro kv hm hkk
        exact hk0 (by
          rw [← h1] at hkk
          rw [← hkk]
          exact List.mem_map_of_mem Prod.fst hm)
      rw [hnone, mapLookup_insert, if_pos h1]
      rfl
    · rw [if_neg h1]
      cases hrl : mapLookup rest k with
      | some w => rfl
      | none =>
        show mapLookup (mapInsert a k0 v0) k = mapLookup a k
        rw [mapLookup_insert, if_neg h1]

/-- `UniswapV2Factory` (src/amm/uniswap_v2/factory.rs, lines 32-37). -/
structure UniswapV2Factory where
  address : Nat
  creation_block : Nat
  fee : Nat
  deriving DecidableEq, Repr

/-- `Factory` (src/amm/factory.rs, line 72): closed variant over factory
kinds, currently only `UniswapV2Factory`. -/
inductive Factory where
  | uniswapV2Factory (f : UniswapV2Factory)
  deriving DecidableEq, Repr

/-- `Factory::address` via the per-variant dispatch. -/
def Factory.address : Factory → Nat
  | .uniswapV2Factory f => f.address

/-- `AMM` (src/amm/mod.rs, line 163): closed variant over venue kinds,
currently only `UniswapV2Pool`. -/
inductive AMM where
  | uniswapV2Pool (p : UniswapV2Pool)
  deriving DecidableEq, Repr

/-- `AMM::address` via the per-variant dispatch. -/
def AMM.address : AMM → Nat
  | .uniswapV2Pool p => p.address

/-- `AMM::tokens` (src/amm/uniswap_v2/mod.rs, lines 65-67). -/
def AMM.tokens : AMM → List Nat
  | .uniswapV2Pool p => [p.token_a.address, p.token_b.address]

/-- `AMM::currencies` (src/amm/uniswap_v2/mod.rs, lines 69-71). -/
def AMM.currencies : AMM → List Currency
  | .uniswapV2Pool p => [p.token_a, p.token_b]

/-- `UniswapV2Pool::set_currency` (src/amm/uniswap_v2/mod.rs, lines
77-87). -/
def UniswapV2Pool.set_currency (p : UniswapV2Pool) (c : Currency) : UniswapV2Pool :=
  if c.address = p.token_a.address then { p with token_a := c }
  else if c.address = p.token_b.address then { p with token_b := c }
  else p

/-- `AMM::set_currency` dispatch. -/
def AMM.set_currency : AMM → Currency → AMM
  | .uniswapV2Pool p, c => .uniswapV2Pool (p.set_currency c)

/-- `Checkpoint` (src/sync/checkpoint.rs, lines 29-49). -/
structure Checkpoint where
  block_number : Option Nat
  factories : List (Nat × Factory)
  amms : List (Nat × AMM)
  currencies : List (Nat × Currency)
  currencies_blacklist : List Nat
  deriving DecidableEq, Repr

/-- `std::cmp::min` on `Option<u64>`: `None` is smaller than any `Some`. -/
def optMin : Option Nat → Option Nat → Option Nat
  | none, _ => none
  | _, none => none
  | some a, some b => some (min a b)

/-- `Checkpoint::extend` (src/sync/checkpoint.rs, lines 87-91): the resume
block number becomes the minimum, and the `factories` and `amms` maps are
extended with the incoming checkpoint's entries.  The `currencies` map and
the blacklist are not touched. -/
def Checkpoint.extend (c other : Checkpoint) : Checkpoint :=
  { c with
    block_number := optMin c.block_number other.block_number
    factories := mapExtend c.factories other.factories
    amms := mapExtend c.amms other.amms }

/-! ### Claim C3 -/

/-- **C3** (amended).  `Checkpoint::extend` sets the resume block number to
the minimum of the two (`None` counting as smallest) and unions the factory
and venue maps with the incoming checkpoint's entry winning on key
collision; the currency map and the blacklist of the receiving checkpoint
are left unchanged — incoming currencies and blacklist entries are *not*
merged (refuted for them by `c3_extend_counterexample`).  The claim's
concrete example holds: merging `{height:100, V:v1}` with `{height:50,
V:v2}` yields `{height:50, V:v2}`. -/
theorem c3_extend_spec (a b : Checkpoint) (hf : nodupKeys b.factories)
    (hm : nodupKeys b.amms) :
    (a.extend b).block_number = optMin a.block_number b.block_number
    ∧ (∀ k, mapLookup (a.extend b).factories k
        = (mapLookup b.factories k).orElse (fun _ => mapLookup a.factories k))
    ∧ (∀ k, mapLookup (a.extend b).amms k
        = (mapLookup b.amms k).orElse (fun _ => mapLookup a.amms k))
    ∧ (a.extend b).currencies = a.currencies
    ∧ (a.extend b).currencies_blacklist = a.currencies_blacklist := by
  refine ⟨rfl, ?_, ?_, rfl, rfl⟩
  · intro k
    exact mapExtend_lookup a.factories b.factories hf k
  · intro k
    exact mapExtend_lookup a.amms b.amms hm k

/-- Witness for C3: the claim's example.  `A = {height:100, V:v1}` merged
with `B = {height:50, V:v2}` yields height 50 and `V ↦ v2`. -/
theorem c3_extend_spec_witness :
    (Checkpoint.extend
        ⟨some 100, [], [(9, .uniswapV2Pool ⟨9, .default, .default, 1, 1, (0, 0), 300⟩)], [], []⟩
        ⟨some 50, [], [(9, .uniswapV2Pool ⟨9, .default, .default, 2, 2, (0, 0), 300⟩)], [], []⟩).block_number
      = some 50
    ∧ mapLookup (Checkpoint.extend
        ⟨some 100, [], [(9, .uniswapV2Pool ⟨9, .default, .default, 1, 1, (0, 0), 300⟩)], [], []⟩
        ⟨some 50, [], [(9, .uniswapV2Pool ⟨9, .default, .default, 2, 2, (0, 0), 300⟩)], [], []⟩).amms 9
      = some (.uniswapV2Pool ⟨9, .default, .default, 2, 2, (0, 0), 300⟩) := by
  have h := c3_extend_spec
    ⟨some 100, [], [(9, .uniswapV2Pool ⟨9, .default, .default, 1, 1, (0, 0), 300⟩)], [], []⟩
    ⟨some 50, [], [(9, .uniswapV2Pool ⟨9, .default, .default, 2, 2, (0, 0), 300⟩)], [], []⟩
    (by decide) (by decide)
  exact ⟨h.1.trans (by decide), (h.2.2.1 9).trans (by decide)⟩

/-- **C3** counterexample: the claim says extend unions the currency map
and the blacklist too, but an incoming currency entry and blacklist entry
are dropped. -/
theorem c3_extend_counterexample :
    mapLookup (Checkpoint.extend ⟨some 1, [], [], [], []⟩
        ⟨some 1, [], [], [(7, ⟨7, "USD", 6⟩)], [9]⟩).currencies 7 = none
    ∧ mapLookup (⟨some 1, [], [], [(7, ⟨7, "USD", 6⟩)], [9]⟩ : Checkpoint).currencies 7
      = some ⟨7, "USD", 6⟩
    ∧ (Checkpoint.extend ⟨some 1, [], [], [], []⟩
        ⟨some 1, [], [], [(7, ⟨7, "USD", 6⟩)], [9]⟩).currencies_blacklist = []
    ∧ (⟨some 1, [], [], [(7, ⟨7, "USD", 6⟩)], [9]⟩ : Checkpoint).currencies_blacklist
      = [9] := by
  refine ⟨by decide, by decide, by decide, by decide⟩

/-! ## Persistence adapter (src/sync/serde_with.rs, src/sync/checkpoint.rs)

`serialize_map_to_vec` writes the map's values; `deserialize_vec_to_map`
rebuilds the map keyed by each item's own address (`H160Map::key`).  The
serde layer itself is treated as faithful; the adapter and the map↔list
conversion is what is modelled.  `CheckpointFile` is the on-disk form. -/

/-- `serialize_map_to_vec`: the list of values, in iteration order. -/
def mapToVec {α : Type} (m : List (Nat × α)) : List α := m.map Prod.snd

/-- `deserialize_vec_to_map`: collect into a map keyed by
`item.key()` — a left fold of inserts, later items winning. -/
def vecToMap {α : Type} (key : α → Nat) (v : List α) : List (Nat × α) :=
  v.foldl (fun acc item => mapInsert acc (key item) item) []

/-- The on-disk checkpoint layout (spec section 6): ordered lists plus the
blacklist and the optional resume height. -/
structure CheckpointFile where
  block_number : Option Nat
  factories : List Factory
  amms : List AMM
  currencies : List Currency
  currencies_blacklist : List Nat
  deriving DecidableEq, Repr

/-- `Checkpoint::save_to_file`, restricted to the adapter layer. -/
def checkpointSave (c : Checkpoint) : CheckpointFile :=
  ⟨c.block_number, mapToVec c.factories, mapToVec c.amms, mapToVec c.currencies,
   c.currencies_blacklist⟩

/-- `Checkpoint::new_from_file`, restricted to the adapter layer. -/
def checkpointLoad (f : CheckpointFile) : Checkpoint :=
  ⟨f.block_number, vecToMap Factory.address f.factories, vecToMap AMM.address f.amms,
   vecToMap Currency.address f.currencies, f.currencies_blacklist⟩

/-- Every entry is keyed by its own value's address. -/
def selfKeyed {α : Type} (key : α → Nat) (m : List (Nat × α)) : Prop :=
  ∀ kv ∈ m, kv.1 = key kv.2

instance {α : Type} (key : α → Nat) [DecidableEq α] (m : List (Nat × α)) :
    Decidable (selfKeyed key m) := by
  unfold selfKeyed
  infer_instance

theorem vecToMap_go_lookup_none {α : Type} (key : α → Nat) (v : List α)
    (acc : List (Nat × α)) (k : Nat) (h : ∀ x ∈ v, key x ≠ k) :
    mapLookup (v.foldl (fun acc it => mapInsert acc (key it) it) acc) k
      = mapLookup acc k := by
  induction v generalizing acc with
  | nil => rfl
  | cons x rest ih =>
    simp only [List.foldl_cons]
    rw [ih _ (fun z hz => h z (List.mem_cons_of_mem _ hz))]
    rw [mapLookup_insert, if_neg (h x (List.mem_cons_self _ _))]

theorem vecToMap_go_lookup_mem {α : Type} (key : α → Nat) :
    ∀ (v : List α) (acc : List (Nat × α)) (x : α), x ∈ v → (v.map key).Nodup →
      mapLookup (v.foldl (fun acc it => mapInsert acc (key it) it) acc) (key x)
        = some x := by
  intro v
  induction v with
  | nil =>
    intro acc x hx _
    cases hx
  | cons y rest ih =>
    intro acc x hx hnd
    simp only [List.foldl_cons]
    have hnd' : (rest.map key).Nodup := (List.nodup_cons.1 hnd).2
    rcases List.mem_cons.1 hx with rfl | hmem
    · have hout : ∀ z ∈ rest, key z ≠ key x := by
        intro z hz hkz
        exact (List.nodup_cons.1 hnd).1 (hkz ▸ List.mem_map_of_mem key hz)
      rw [vecToMap_go_lookup_none key rest _ (key x) hout]
      rw [mapLookup_insert, if_pos rfl]
    · exact ih _ x hmem hnd'

theorem mapLookup_some_mem {α : Type} (m : List (Nat × α)) (k : Nat) (a : α)
    (h : mapLookup m k = some a) : (k, a) ∈ m := by
  induction m with
  | nil => cases h
  | cons kv rest ih =>
    obtain ⟨k0, v0⟩ := kv
    rw [mapLookup_cons] at h
    by_cases h0 : k0 = k
    · rw [if_pos h0] at h
      injection h with h1
      rw [← h0, ← h1]
      exact List.mem_cons_self _ _
    · rw [if_neg h0] at h
      exact List.mem_cons_of_mem _ (ih h)

theorem mapLookup_none_keys {α : Type} (m : List (Nat × α)) (k : Nat)
    (h : mapLookup m k = none) : ∀ kv ∈ m, kv.1 ≠ k := by
  induction m with
  | nil => intro kv hm; cases hm
  | cons kv0 rest ih =>
    obtain ⟨k0, v0⟩ := kv0
    rw [mapLookup_cons] at h
    by_cases h0 : k0 = k
    · rw [if_pos h0] at h
      cases h
    · rw [if_neg h0] at h
      intro kv hm
      rcases List.mem_cons.1 hm with rfl | hmem
      · exact h0
      · exact ih h kv hmem

/-- Deserializing any permutation of the serialized values of a self-keyed,
duplicate-free map rebuilds a map with the same lookups. -/
theorem vecToMap_lookup_eq {α : Type} (key : α → Nat) (m : List (Nat × α))
    (h1 : selfKeyed key m) (h2 : nodupKeys m) (v : List α)
    (hperm : v.Perm (m.map Prod.snd)) :
    ∀ k, mapLookup (vecToMap key v) k = mapLookup m k := by
  intro k
  have hmk : m.map Prod.fst = (m.map Prod.snd).map key := by
    rw [List.map_map]
    exact List.map_congr_left h1
  have hvnd : (v.map key).Nodup := by
    have h3 : ((m.map Prod.snd).map key).Nodup := by
      rw [← hmk]
      exact h2
    exact ((hperm.map key).nodup_iff).2 h3
  cases hm : mapLookup m k with
  | some a =>
    have hmem : (k, a) ∈ m := mapLookup_some_mem _ _ _ hm
    have hka : k = key a := h1 (k, a) hmem
    have hmem3 : a ∈ v := hperm.mem_iff.2 (List.mem_map_of_mem Prod.snd hmem)
    rw [hka]
    exact vecToMap_go_lookup_mem key v [] a hmem3 hvnd
  | none =>
    have hkeys := mapLookup_none_keys _ _ hm
    unfold vecToMap
    rw [vecToMap_go_lookup_none key v [] k ?_]
    · rfl
    · intro x hxv hkx
      have hxm : x ∈ m.map Prod.snd := hperm.mem_iff.1 hxv
      obtain ⟨kv, hkvm, hkvx⟩ := List.mem_map.1 hxm
      apply hkeys kv hkvm
      rw [h1 kv hkvm, hkvx, hkx]

/-! ### Claim C8 -/

/-- **C8**.  For a checkpoint whose factory, venue and currency maps are
keyed by each entity's own address (with duplicate-free keys), saving and
then loading — i.e. flattening each map to its value list and rebuilding
the map keyed by address — reproduces exactly the same entries, blacklist
and resume block number; and this holds for *any* permutation of each
serialized list, so the round trip is independent of the maps' iteration
or insertion order. -/
theorem c8_save_load_roundtrip (c : Checkpoint)
    (hf1 : selfKeyed Factory.address c.factories) (hf2 : nodupKeys c.factories)
    (ha1 : selfKeyed AMM.address c.amms) (ha2 : nodupKeys c.amms)
    (hc1 : selfKeyed Currency.address c.currencies) (hc2 : nodupKeys c.currencies)
    (vf : List Factory) (hvf : vf.Perm (checkpointSave c).factories)
    (va : List AMM) (hva : va.Perm (checkpointSave c).amms)
    (vc : List Currency) (hvc : vc.Perm (checkpointSave c).currencies) :
    (∀ k, mapLookup (checkpointLoad
        ⟨c.block_number, vf, va, vc, c.currencies_blacklist⟩).factories k
      = mapLookup c.factories k)
    ∧ (∀ k, mapLookup (checkpointLoad
        ⟨c.block_number, vf, va, vc, c.currencies_blacklist⟩).amms k
      = mapLookup c.amms k)
    ∧ (∀ k, mapLookup (checkpointLoad
        ⟨c.block_number, vf, va, vc, c.currencies_blacklist⟩).currencies k
      = mapLookup c.currencies k)
    ∧ (checkpointLoad
        ⟨c.block_number, vf, va, vc, c.currencies_blacklist⟩).block_number
      = c.block_number
    ∧ (checkpointLoad
        ⟨c.block_number, vf, va, vc, c.currencies_blacklist⟩).currencies_blacklist
      = c.currencies_blacklist := by
  exact ⟨vecToMap_lookup_eq Factory.address c.factories hf1 hf2 vf hvf,
         vecToMap_lookup_eq AMM.address c.amms ha1 ha2 va hva,
         vecToMap_lookup_eq Currency.address c.currencies hc1 hc2 vc hvc,
         rfl, rfl⟩

/-- Witness for C8: a two-currency checkpoint round-trips with the
serialized currency list given in the *reversed* order. -/
theorem c8_save_load_roundtrip_witness :
    (∀ k, mapLookup (checkpointLoad
        ⟨some 7, [], [], [⟨8, "B", 18⟩, ⟨5, "A", 6⟩], [3]⟩).currencies k
      = mapLookup [(5, (⟨5, "A", 6⟩ : Currency)), (8, ⟨8, "B", 18⟩)] k)
    ∧ mapLookup (checkpointLoad
        ⟨some 7, [], [], [⟨8, "B", 18⟩, ⟨5, "A", 6⟩], [3]⟩).currencies 5
      = some ⟨5, "A", 6⟩ := by
  have h := c8_save_load_roundtrip
    ⟨some 7, [], [], [(5, ⟨5, "A", 6⟩), (8, ⟨8, "B", 18⟩)], [3]⟩
    (by decide) (by decide) (by decide) (by decide) (by decide) (by decide)
    [] (by decide) [] (by decide)
    [⟨8, "B", 18⟩, ⟨5, "A", 6⟩] (by decide)
  exact ⟨h.2.2.1, (h.2.2.1 5).trans (by decide)⟩

/-! ## Currency resolution (src/sync/checkpoint.rs, lines 188-257) -/

/-- `HashSet::insert` on the blacklist, modelled on lists. -/
def setInsert (s : List Nat) (x : Nat) : List Nat :=
  if x ∈ s then s else s ++ [x]

/-- The token addresses collected as missing in the first loop of
`sync_currencies` (lines 192-203): every token of a tracked venue with no
entry in the currency map. -/
def checkpointMissingCurrencies (c : Checkpoint) : List Nat :=
  (c.amms.map (fun ka =>
    (ka.2.tokens).filter (fun t => (mapLookup c.currencies t).isNone))).flatten

/-- The venue updates of the first loop of `sync_currencies`: each venue
takes the already-known currency for each of its tokens. -/
def phase1Amms (c : Checkpoint) : List (Nat × AMM) :=
  c.amms.map (fun ka =>
    (ka.1, (ka.2.tokens).foldl (fun amm t =>
      match mapLookup c.currencies t with
      | none => amm
      | some cur => amm.set_currency cur) ka.2))

/-- `Checkpoint::remove_invalid_amm` (src/sync/checkpoint.rs, lines
127-149): with a nonempty blacklist, drop every venue referencing a
blacklisted token. -/
def removeInvalidAmm (bl : List Nat) (amms : List (Nat × AMM)) :
    List (Nat × AMM) :=
  if bl = [] then amms
  else amms.filter (fun ka => ¬ (ka.2.tokens).any (fun t => bl.contains t))

/-- The re-fill loop of `sync_currencies` (lines 243-254): update each
venue's unpopulated currencies from the currency map. -/
def ammRefill (currencies : List (Nat × Currency)) (amm : AMM) : AMM :=
  (amm.currencies).foldl (fun a cur =>
    if cur.data_is_populated then a
    else
      match mapLookup currencies cur.address with
      | none => a
      | some c2 => a.set_currency c2) amm

/-- `Checkpoint::sync_currencies` (src/sync/checkpoint.rs, lines 188-257).
The network-facing `batch_get_currency_info` call (issued with chunk size
`step = 100`) is abstracted into the `fetched` argument — the list of
currencies the batch returned.  If it is empty, return early; otherwise
insert the valid ones, then — only if `step == 1`, with `step` hard-coded
to `100` — blacklist the still-missing addresses and remove venues
referencing them; finally re-fill venue currencies. -/
def Checkpoint.sync_currencies (c : Checkpoint) (fetched : List Currency) :
    Checkpoint :=
  let amms1 := phase1Amms c
  if fetched = [] then { c with amms := amms1 }
  else
    let currencies2 := fetched.foldl (fun m cur =>
      if cur.is_invalid_token then m else mapInsert m cur.address cur) c.currencies
    let step : Nat := 100
    let p :=
      if step = 1 then
        let bl := (checkpointMissingCurrencies c).foldl (fun bl t =>
          if (mapLookup currencies2 t).isNone then setInsert bl t else bl)
          c.currencies_blacklist
        (bl, removeInvalidAmm bl amms1)
      else (c.currencies_blacklist, amms1)
    let amms3 := p.2.map (fun ka => (ka.1, ammRefill currencies2 ka.2))
    { c with amms := amms3, currencies := currencies2, currencies_blacklist := p.1 }

/-! ### Claim C5 -/

/-- **C5** (amended).  `sync_currencies` only ever adds the valid fetched
currencies to the currency map: because the chunk size is hard-coded to
100, the branch that blacklists still-unresolved addresses and evicts
venues referencing them (guarded by `chunk_size == 1`) is unreachable.
After any successful `sync_currencies` the blacklist is exactly what it
was before, and the tracked venue set (by address) is unchanged — no
unresolved token is blacklisted and no venue is evicted. -/
theorem c5_sync_currencies_no_blacklist (c : Checkpoint) (fetched : List Currency) :
    (c.sync_currencies fetched).currencies_blacklist = c.currencies_blacklist
    ∧ (c.sync_currencies fetched).amms.map Prod.fst = c.amms.map Prod.fst := by
  have hkeys1 : (phase1Amms c).map Prod.fst = c.amms.map Prod.fst := by
    unfold phase1Amms
    rw [List.map_map]
    exact List.map_congr_left (fun ka _ => rfl)
  unfold Checkpoint.sync_currencies
  by_cases hf : fetched = []
  · rw [if_pos hf]
    exact ⟨rfl, hkeys1⟩
  · rw [if_neg hf]
    simp only [if_neg (by norm_num : ¬ (100 : Nat) = 1)]
    refine ⟨by first | rfl | trivial, ?_⟩
    show ((phase1Amms c).map (fun ka => (ka.1, ammRefill _ ka.2))).map Prod.fst
      = c.amms.map Prod.fst
    rw [List.map_map]
    calc (phase1Amms c).map (Prod.fst ∘ fun ka => (ka.1, ammRefill _ ka.2))
        = (phase1Amms c).map Prod.fst := List.map_congr_left (fun ka _ => rfl)
    _ = c.amms.map Prod.fst := hkeys1

/-- **C5** counterexample: a venue referencing token `7` with no currency
entry; the batch resolves nothing.  After `sync_currencies` returns
successfully, `7` was queried and is still unresolved, yet the blacklist is
still empty; and a venue referencing the *already blacklisted* token `7`
survives `sync_currencies` as well. -/
theorem c5_unresolved_not_blacklisted :
    7 ∈ checkpointMissingCurrencies
      ⟨none, [], [(1, .uniswapV2Pool ⟨1, ⟨7, "", 0⟩, ⟨8, "", 0⟩, 0, 0, (0, 0), 300⟩)], [], []⟩
    ∧ mapLookup ((Checkpoint.sync_currencies
        ⟨none, [], [(1, .uniswapV2Pool ⟨1, ⟨7, "", 0⟩, ⟨8, "", 0⟩, 0, 0, (0, 0), 300⟩)], [], []⟩
        []).currencies) 7 = none
    ∧ (Checkpoint.sync_currencies
        ⟨none, [], [(1, .uniswapV2Pool ⟨1, ⟨7, "", 0⟩, ⟨8, "", 0⟩, 0, 0, (0, 0), 300⟩)], [], []⟩
        []).currencies_blacklist = []
    ∧ mapLookup ((Checkpoint.sync_currencies
        ⟨none, [], [(1, .uniswapV2Pool ⟨1, ⟨7, "", 0⟩, ⟨8, "", 0⟩, 0, 0, (0, 0), 300⟩)], [], [7]⟩
        [⟨9, "X", 18⟩]).amms) 1
      = some (.uniswapV2Pool ⟨1, ⟨7, "", 0⟩, ⟨8, "", 0⟩, 0, 0, (0, 0), 300⟩) := by
  refine ⟨by decide, by decide, by decide, by decide⟩
